import Mathlib

/-!
# nvme_exporter: a shallow embedding of the reconciliation core

The development follows the Go sources `json.go`, `app.go`, `main.go` and `metrics.go`.

* Go `uint64` values are natural numbers, with `% 2 ^ 64` written out where the
  source arithmetic can wrap; Go `int` values are integers.
* Go maps that are only read and written at single keys (`deviceData`, the label
  maps behind the Prometheus vectors) are functions into `Option`; the map that
  the code ranges over (`knownDevices`) is an association list with unique keys.
* The external commands and the JSON decoder are inputs of a cycle.
* Every call on a Prometheus vector is recorded, in order, as a `SinkOp`.
-/

namespace NvmeExporter

/-! ## json.go: data types -/

/-- One entry of the `Devices` array printed by the device-list command. -/
structure NVMeDevice where
  NameSpace : Int
  DevicePath : String
  Firmware : String
  ModelNumber : String
  SerialNumber : String
  UsedBytes : Nat
  MaximumLBA : Nat
  PhysicalSize : Nat
  SectorSize : Nat
deriving DecidableEq

/-- The Go zero value of `NVMeDevice`, which a map read of an absent key returns. -/
def NVMeDevice.zero : NVMeDevice :=
  ⟨0, "", "", "", "", 0, 0, 0, 0⟩

/-- Decoded output of the device-list command. -/
structure NVMeDevices where
  Devices : List NVMeDevice
deriving DecidableEq

/-- Normalised telemetry of one device. -/
structure NVMeStats where
  CriticalWarning : Int
  Temperature : Int
  AvailSpare : Int
  SpareThresh : Int
  PercentUsed : Int
  EnduranceGrpCriticalWarningSummary : Int
  DataUnitsRead : Nat
  DataUnitsWritten : Nat
  HostReadCommands : Nat
  HostWriteCommands : Nat
  ControllerBusyTime : Nat
  PowerCycles : Nat
  PowerOnHours : Nat
  UnsafeShutdowns : Nat
  MediaErrors : Nat
  NumErrLogEntries : Nat
  WarningTempTime : Int
  CriticalCompTime : Int
  ThmTemp1TransCount : Int
  ThmTemp2TransCount : Int
  ThmTemp1TotalTime : Int
  ThmTemp2TotalTime : Int
deriving DecidableEq

/-- Telemetry as decoded from the smart-log JSON: the ten counters are still strings. -/
structure rawNVMeStats where
  CriticalWarning : Int
  Temperature : Int
  AvailSpare : Int
  SpareThresh : Int
  PercentUsed : Int
  EnduranceGrpCriticalWarningSummary : Int
  DataUnitsRead : String
  DataUnitsWritten : String
  HostReadCommands : String
  HostWriteCommands : String
  ControllerBusyTime : String
  PowerCycles : String
  PowerOnHours : String
  UnsafeShutdowns : String
  MediaErrors : String
  NumErrLogEntries : String
  WarningTempTime : Int
  CriticalCompTime : Int
  ThmTemp1TransCount : Int
  ThmTemp2TransCount : Int
  ThmTemp1TotalTime : Int
  ThmTemp2TotalTime : Int
deriving DecidableEq

/-! ## strconv.ParseUint (base 10, 64 bits) and strings.ReplaceAll -/

/-- The two error kinds of `strconv`: `malformed` is `ErrSyntax`, `outOfRange` is `ErrRange`. -/
inductive NumError where
  | malformed
  | outOfRange
deriving DecidableEq

/-- Largest `uint64`. -/
def maxUint64 : Nat := 2 ^ 64 - 1

/-- Value of `cutoff` in `ParseUint` for base 10: `maxUint64/10 + 1`. -/
def cutoff : Nat := maxUint64 / 10 + 1

/-- Test `'0' <= c && c <= '9'` of `ParseUint`. -/
def isDecDigit (c : Char) : Bool :=
  decide (48 ≤ c.toNat) && decide (c.toNat ≤ 57)

/-- Body of the digit loop of `ParseUint` with `base = 10`, `bitSize = 64`; `n` is the accumulator.
A character that is not a decimal digit ends the loop with `(0, ErrSyntax)` (letters are digits
of value at least 10, hence `d >= base`; the underscore is accepted for base 0 only).
Overflow ends it with `(maxVal, ErrRange)`. -/
def parseUintLoop : List Char → Nat → Nat × Option NumError
  | [], n => (n, none)
  | c :: cs, n =>
    if isDecDigit c then
      let d := c.toNat - 48
      if n ≥ cutoff then (maxUint64, some NumError.outOfRange)
      else
        let n10 := (n * 10) % 2 ^ 64
        let n1 := (n10 + d) % 2 ^ 64
        if n1 < n10 ∨ n1 > maxUint64 then (maxUint64, some NumError.outOfRange)
        else parseUintLoop cs n1
    else (0, some NumError.malformed)

/-- The call `strconv.ParseUint(s, 10, 64)`: returned value and error. -/
def ParseUint (s : String) : Nat × Option NumError :=
  if s.data = [] then (0, some NumError.malformed) else parseUintLoop s.data 0

/-- The call `strings.ReplaceAll(s, ",", "")`. -/
def removeCommas (s : String) : String :=
  ⟨s.data.filter (fun c => c ≠ ',')⟩

/-- Source: `parseNumberWithCommas` in json.go. -/
def parseNumberWithCommas (s : String) : Nat × Option NumError :=
  ParseUint (removeCommas s)

/-- The closure `parse` inside `parseNVMeStats`: the error is dropped, the value is kept. -/
def parse (s : String) : Nat :=
  (parseNumberWithCommas s).1

/-! ## float64 arithmetic used by the temperature conversion -/

/-- Round to the nearest integer, ties to the even one. -/
def roundHalfEven (x : ℚ) : ℤ :=
  let f := ⌊x⌋
  if x - f < 1 / 2 then f
  else if 1 / 2 < x - f then f + 1
  else if f % 2 = 0 then f else f + 1

/-- Rounding of an exact value to binary64 (53-bit significand, round to nearest, ties to even,
gradual underflow). Exact for every `q` below the overflow threshold, which all values that
occur here are (their magnitude is below `2 ^ 64`). -/
def f64 (q : ℚ) : ℚ :=
  if q = 0 then 0
  else
    let e : ℤ := max (Int.log 2 |q|) (-1022)
    let ulp : ℚ := (2 : ℚ) ^ (e - 52)
    (roundHalfEven (q / ulp) : ℚ) * ulp

/-- Go `math.Round`: nearest integer, halves away from zero. -/
def mathRound (x : ℚ) : ℚ :=
  if 0 ≤ x then (⌊x + 1 / 2⌋ : ℤ) else -(⌊-x + 1 / 2⌋ : ℤ)

/-- Go conversion `int(x)` of a float64: truncation toward zero. Outside the `int64` range the
result is implementation-specific; the value given here is the one of amd64. -/
def floatToInt (x : ℚ) : Int :=
  if -(2 : ℚ) ^ 63 ≤ x ∧ x < (2 : ℚ) ^ 63 then
    (if 0 ≤ x then ⌊x⌋ else ⌈x⌉)
  else -(2 : ℤ) ^ 63

/-- The expression `int(math.Round(float64(t) - 273.15))` of `parseNVMeStats`. -/
def kelvinToCelsius (t : Int) : Int :=
  floatToInt (mathRound (f64 (f64 (t : ℚ) - f64 (27315 / 100))))

/-! ## json.go: parseNVMeStats -/

/-- Source: `parseNVMeStats` in json.go. `unmarshal` is `json.Unmarshal` into `rawNVMeStats`;
`none` is its error. -/
def parseNVMeStats (unmarshal : List Nat → Option rawNVMeStats) (data : List Nat) :
    Option NVMeStats :=
  match unmarshal data with
  | none => none
  | some raw =>
    some
      { CriticalWarning := raw.CriticalWarning
        Temperature := kelvinToCelsius raw.Temperature
        AvailSpare := raw.AvailSpare
        SpareThresh := raw.SpareThresh
        PercentUsed := raw.PercentUsed
        EnduranceGrpCriticalWarningSummary := raw.EnduranceGrpCriticalWarningSummary
        DataUnitsRead := parse raw.DataUnitsRead
        DataUnitsWritten := parse raw.DataUnitsWritten
        HostReadCommands := parse raw.HostReadCommands
        HostWriteCommands := parse raw.HostWriteCommands
        ControllerBusyTime := parse raw.ControllerBusyTime
        PowerCycles := parse raw.PowerCycles
        PowerOnHours := parse raw.PowerOnHours
        UnsafeShutdowns := parse raw.UnsafeShutdowns
        MediaErrors := parse raw.MediaErrors
        NumErrLogEntries := parse raw.NumErrLogEntries
        WarningTempTime := raw.WarningTempTime
        CriticalCompTime := raw.CriticalCompTime
        ThmTemp1TransCount := raw.ThmTemp1TransCount
        ThmTemp2TransCount := raw.ThmTemp2TransCount
        ThmTemp1TotalTime := raw.ThmTemp1TotalTime
        ThmTemp2TotalTime := raw.ThmTemp2TotalTime }

/-! ## main.go, metrics.go: the metric vectors -/

/-- The 26 capacity and health gauge vectors declared in main.go, each labelled by `device`. -/
inductive Gauge where
  | nvmeUsedBytes
  | nvmeMaximumLBA
  | nvmePhysicalSize
  | nvmeSectorSize
  | nvmeCriticalWarning
  | nvmeTemperature
  | nvmeAvailSpare
  | nvmeSpareThresh
  | nvmePercentUsed
  | nvmeEnduranceGrpCriticalWarningSummary
  | nvmeDataUnitsRead
  | nvmeDataUnitsWritten
  | nvmeHostReadCommands
  | nvmeHostWriteCommands
  | nvmeControllerBusyTime
  | nvmePowerCycles
  | nvmePowerOnHours
  | nvmeUnsafeShutdowns
  | nvmeMediaErrors
  | nvmeNumErrLogEntries
  | nvmeWarningTempTime
  | nvmeCriticalCompTime
  | nvmeThmTemp1TransCount
  | nvmeThmTemp2TransCount
  | nvmeThmTemp1TotalTime
  | nvmeThmTemp2TotalTime
deriving DecidableEq

/-- The gauge vectors in the order in which `runLoop` sets them and deletes from them. -/
def Gauge.all : List Gauge :=
  [.nvmeUsedBytes, .nvmeMaximumLBA, .nvmePhysicalSize, .nvmeSectorSize,
   .nvmeCriticalWarning, .nvmeTemperature, .nvmeAvailSpare, .nvmeSpareThresh, .nvmePercentUsed,
   .nvmeEnduranceGrpCriticalWarningSummary, .nvmeDataUnitsRead, .nvmeDataUnitsWritten,
   .nvmeHostReadCommands, .nvmeHostWriteCommands, .nvmeControllerBusyTime, .nvmePowerCycles,
   .nvmePowerOnHours, .nvmeUnsafeShutdowns, .nvmeMediaErrors, .nvmeNumErrLogEntries,
   .nvmeWarningTempTime, .nvmeCriticalCompTime, .nvmeThmTemp1TransCount,
   .nvmeThmTemp2TransCount, .nvmeThmTemp1TotalTime, .nvmeThmTemp2TotalTime]

/-- Contents of the Prometheus registry: the series of `nvmeInfo` by their four label values
(device, model, serial, firmware), the series of each gauge vector by device, and the counter
`loopRuns`. `none` means that the series does not exist. -/
structure Sink where
  nvmeInfo : String → String → String → String → Option ℚ
  gauge : Gauge → String → Option ℚ
  loopRuns : Nat

/-- The registry at process start: no series, counter at zero. -/
def Sink.empty : Sink :=
  ⟨fun _ _ _ _ => none, fun _ _ => none, 0⟩

/-- A call that `runLoop` makes on a metric vector.
* `setInfo d m s f` is `nvmeInfo.WithLabelValues(d, m, s, f).Set(1)`;
* `deleteInfo d` is `nvmeInfo.DeletePartialMatch(prometheus.Labels{"device": d})`;
* `setGauge g d v` is `g.WithLabelValues(d).Set(v)`;
* `deleteGauge g d` is `g.DeleteLabelValues(d)`. -/
inductive SinkOp where
  | setInfo (device model serial firmware : String)
  | deleteInfo (device : String)
  | setGauge (g : Gauge) (device : String) (v : ℚ)
  | deleteGauge (g : Gauge) (device : String)
deriving DecidableEq

/-- Value of the `device` label that the call addresses. -/
def SinkOp.device : SinkOp → String
  | .setInfo d _ _ _ => d
  | .deleteInfo d => d
  | .setGauge _ d _ => d
  | .deleteGauge _ d => d

/-- Effect of one call on the registry. -/
def Sink.apply (s : Sink) : SinkOp → Sink
  | .setInfo d m sn fw =>
    { s with nvmeInfo := fun d' m' sn' fw' =>
        if d' = d ∧ m' = m ∧ sn' = sn ∧ fw' = fw then some 1 else s.nvmeInfo d' m' sn' fw' }
  | .deleteInfo d =>
    { s with nvmeInfo := fun d' m' sn' fw' => if d' = d then none else s.nvmeInfo d' m' sn' fw' }
  | .setGauge g d v =>
    { s with gauge := fun g' d' => if g' = g ∧ d' = d then some v else s.gauge g' d' }
  | .deleteGauge g d =>
    { s with gauge := fun g' d' => if g' = g ∧ d' = d then none else s.gauge g' d' }

/-! ## app.go -/

/-- What the external commands return during one call of `runLoop`: the output of the
device-list command and, per device path, the output of the smart-log command; `none` is a
command error. -/
structure Cycle where
  nvmeList : Option (List Nat)
  smartLog : String → Option (List Nat)

/-- The two uses of `json.Unmarshal`; `none` is a decoding error. -/
structure Json where
  unmarshalDevices : List Nat → Option NVMeDevices
  unmarshalStats : List Nat → Option rawNVMeStats

/-- The operations of `backoff.ExponentialBackOff` that `Run` uses, on a state of type `β`. -/
structure BackOff (β : Type) where
  NextBackOff : β → Int × β
  Reset : β → β

/-- Source: `App` in app.go. -/
structure App (β : Type) where
  b : β
  checkInterval : Int
  knownDevices : AList (fun _ : String => Bool)
  deviceData : String → Option NVMeDevice

/-- State threaded through the body of `runLoop`: the receiver, the registry, the calls made
on the registry so far in this call, and the local `hasErrors`. -/
structure LoopState (β : Type) where
  app : App β
  sink : Sink
  calls : List SinkOp
  hasErrors : Bool

/-- Perform the calls `ops` in order. -/
def LoopState.emit {β : Type} (st : LoopState β) (ops : List SinkOp) : LoopState β :=
  { st with sink := ops.foldl Sink.apply st.sink, calls := st.calls ++ ops }

/-- The condition of app.go lines 80-82. -/
def identityDiffers (prevInfo device : NVMeDevice) : Bool :=
  decide (prevInfo.ModelNumber ≠ device.ModelNumber) ||
  decide (prevInfo.SerialNumber ≠ device.SerialNumber) ||
  decide (prevInfo.Firmware ≠ device.Firmware)

/-- Argument of `Set` for each gauge vector, app.go lines 92-118. -/
def gaugeValue (device : NVMeDevice) (stats : NVMeStats) : Gauge → ℚ
  | .nvmeUsedBytes => f64 device.UsedBytes
  | .nvmeMaximumLBA => f64 device.MaximumLBA
  | .nvmePhysicalSize => f64 device.PhysicalSize
  | .nvmeSectorSize => f64 device.SectorSize
  | .nvmeCriticalWarning => f64 stats.CriticalWarning
  | .nvmeTemperature => f64 stats.Temperature
  | .nvmeAvailSpare => f64 stats.AvailSpare
  | .nvmeSpareThresh => f64 stats.SpareThresh
  | .nvmePercentUsed => f64 stats.PercentUsed
  | .nvmeEnduranceGrpCriticalWarningSummary => f64 stats.EnduranceGrpCriticalWarningSummary
  | .nvmeDataUnitsRead => f64 stats.DataUnitsRead
  | .nvmeDataUnitsWritten => f64 stats.DataUnitsWritten
  | .nvmeHostReadCommands => f64 stats.HostReadCommands
  | .nvmeHostWriteCommands => f64 stats.HostWriteCommands
  | .nvmeControllerBusyTime => f64 stats.ControllerBusyTime
  | .nvmePowerCycles => f64 stats.PowerCycles
  | .nvmePowerOnHours => f64 stats.PowerOnHours
  | .nvmeUnsafeShutdowns => f64 stats.UnsafeShutdowns
  | .nvmeMediaErrors => f64 stats.MediaErrors
  | .nvmeNumErrLogEntries => f64 stats.NumErrLogEntries
  | .nvmeWarningTempTime => f64 stats.WarningTempTime
  | .nvmeCriticalCompTime => f64 stats.CriticalCompTime
  | .nvmeThmTemp1TransCount => f64 stats.ThmTemp1TransCount
  | .nvmeThmTemp2TransCount => f64 stats.ThmTemp2TransCount
  | .nvmeThmTemp1TotalTime => f64 stats.ThmTemp1TotalTime
  | .nvmeThmTemp2TotalTime => f64 stats.ThmTemp2TotalTime

/-- The calls on the registry of app.go lines 80-118 for one device, `prevInfo` being the value
read from `deviceData` at line 79. -/
def publishCalls (prevInfo device : NVMeDevice) (stats : NVMeStats) : List SinkOp :=
  (if identityDiffers prevInfo device then [SinkOp.deleteInfo device.DevicePath] else []) ++
  SinkOp.setInfo device.DevicePath device.ModelNumber device.SerialNumber device.Firmware ::
  Gauge.all.map (fun g => SinkOp.setGauge g device.DevicePath (gaugeValue device stats g))

/-- Lines 77-118 of app.go: the work done for a device whose telemetry was fetched and parsed. -/
def publishDevice {β : Type} (device : NVMeDevice) (stats : NVMeStats) (st : LoopState β) :
    LoopState β :=
  let prevInfo := (st.app.deviceData device.DevicePath).getD NVMeDevice.zero
  let app : App β :=
    { st.app with
      knownDevices := st.app.knownDevices.insert device.DevicePath true
      deviceData := Function.update st.app.deviceData device.DevicePath (some device) }
  LoopState.emit { st with app := app } (publishCalls prevInfo device stats)

/-- Body of the first loop of `runLoop`, app.go lines 61-119. -/
def deviceStep {β : Type} (json : Json) (cyc : Cycle) (st : LoopState β) (device : NVMeDevice) :
    LoopState β :=
  match cyc.smartLog device.DevicePath with
  | none => { st with hasErrors := true }
  | some jsonOutput =>
    match parseNVMeStats json.unmarshalStats jsonOutput with
    | none => { st with hasErrors := true }
    | some stats => publishDevice device stats st

/-- The calls on the registry of app.go lines 129-159 for an evicted path. -/
def evictCalls (d : String) : List SinkOp :=
  SinkOp.deleteInfo d :: Gauge.all.map (fun g => SinkOp.deleteGauge g d)

/-- Body of the second loop of `runLoop`, app.go lines 121-160, for the entry `(d, ok)`. -/
def sweepStep {β : Type} (st : LoopState β) (entry : (_ : String) × Bool) : LoopState β :=
  if entry.2 then
    { st with app := { st.app with knownDevices := st.app.knownDevices.insert entry.1 false } }
  else
    LoopState.emit
      { st with app := { st.app with knownDevices := st.app.knownDevices.erase entry.1 } }
      (evictCalls entry.1)

/-- Result of a call of `runLoop`: the returned boolean, the receiver and the registry after
the call, and the calls made on the registry, in order. -/
structure LoopResult (β : Type) where
  success : Bool
  app : App β
  sink : Sink
  calls : List SinkOp

/-- Source: `App.runLoop` in app.go. The second loop ranges over the entries that
`knownDevices` has when the loop starts; each iteration changes its own entry only, so these
are the entries that the Go range statement visits, with the values it reads. -/
def runLoop {β : Type} (json : Json) (cyc : Cycle) (a : App β) (s : Sink) : LoopResult β :=
  match cyc.nvmeList with
  | none => ⟨false, a, s, []⟩
  | some jsonOutput =>
    match json.unmarshalDevices jsonOutput with
    | none => ⟨false, a, s, []⟩
    | some devices =>
      let st := devices.Devices.foldl (deviceStep json cyc) ⟨a, s, [], false⟩
      let st := st.app.knownDevices.entries.foldl sweepStep st
      ⟨!st.hasErrors, st.app, st.sink, st.calls⟩

/-- One iteration of the loop of `App.Run`, app.go lines 23-34: the state after it, the result
of `runLoop` and the duration given to `time.NewTimer`. -/
def runIteration {β : Type} (bo : BackOff β) (json : Json) (cyc : Cycle) (st : App β × Sink) :
    (App β × Sink) × Bool × Int :=
  let r := runLoop json cyc st.1 st.2
  if !r.success then
    let d := bo.NextBackOff r.app.b
    (({ r.app with b := d.2 }, r.sink), false, d.1)
  else
    (({ r.app with b := bo.Reset r.app.b },
      { r.sink with loopRuns := r.sink.loopRuns + 1 }), true, r.app.checkInterval)

/-- Source: `App.Run` in app.go, for the cycles that take place before the context is
cancelled: the final state. -/
def Run {β : Type} (bo : BackOff β) (json : Json) : List Cycle → App β × Sink → App β × Sink
  | [], st => st
  | cyc :: rest, st => Run bo json rest (runIteration bo json cyc st).1

/-- The results of `runLoop` in the successive iterations of `Run`. -/
def runOutcomes {β : Type} (bo : BackOff β) (json : Json) :
    List Cycle → App β × Sink → List Bool
  | [], _ => []
  | cyc :: rest, st =>
    (runIteration bo json cyc st).2.1 :: runOutcomes bo json rest (runIteration bo json cyc st).1

/-- The `App` value built in `main`, main.go lines 288-296, for a backoff state `b`. -/
def App.init {β : Type} (b : β) (checkInterval : Int) : App β :=
  ⟨b, checkInterval, ∅, fun _ => none⟩

/-- States of the program between two iterations of `Run`. -/
inductive Reachable {β : Type} (bo : BackOff β) (json : Json) : App β × Sink → Prop where
  | start (b : β) (checkInterval : Int) : Reachable bo json (App.init b checkInterval, Sink.empty)
  | next (cyc : Cycle) (st : App β × Sink) :
      Reachable bo json st → Reachable bo json (runIteration bo json cyc st).1

/-! ## Derived notions used to state and prove the properties -/

/-- Lines 46-57 of app.go: the device list that `runLoop` goes on with, `none` when the command
or the decoding fails. -/
def listDevices (json : Json) (cyc : Cycle) : Option (List NVMeDevice) :=
  match cyc.nvmeList with
  | none => none
  | some jsonOutput =>
    match json.unmarshalDevices jsonOutput with
    | none => none
    | some devices => some devices.Devices

/-- Lines 62-75 of app.go: the telemetry obtained for a device path, `none` when the smart-log
command or `parseNVMeStats` fails. -/
def fetchStats (json : Json) (cyc : Cycle) (path : String) : Option NVMeStats :=
  match cyc.smartLog path with
  | none => none
  | some jsonOutput => parseNVMeStats json.unmarshalStats jsonOutput

/-- State of `runLoop` after its first loop. -/
def afterDevices {β : Type} (json : Json) (cyc : Cycle) (devs : List NVMeDevice) (a : App β)
    (s : Sink) : LoopState β :=
  devs.foldl (deviceStep json cyc) ⟨a, s, [], false⟩

/-- State of `runLoop` after its second loop. -/
def afterSweep {β : Type} (st : LoopState β) : LoopState β :=
  st.app.knownDevices.entries.foldl sweepStep st

/-- Everything that the state holds about one device path: the entry of `knownDevices`, the
entry of `deviceData`, the info series and the gauge series labelled with the path. -/
structure PathView where
  known : Option Bool
  data : Option NVMeDevice
  info : String → String → String → Option ℚ
  gauge : Gauge → Option ℚ

/-- The part of a receiver and a registry that concerns the path `p`. -/
def viewOf {β : Type} (a : App β) (s : Sink) (p : String) : PathView :=
  ⟨a.knownDevices.lookup p, a.deviceData p, s.nvmeInfo p, fun g => s.gauge g p⟩

/-- The part of a loop state that concerns the path `p`. -/
def LoopState.view {β : Type} (st : LoopState β) (p : String) : PathView :=
  ⟨st.app.knownDevices.lookup p, st.app.deviceData p, st.sink.nvmeInfo p,
    fun g => st.sink.gauge g p⟩

/-- Effect of `publishDevice` on the view of the device's own path. -/
def publishView (d : NVMeDevice) (stats : NVMeStats) (v : PathView) : PathView :=
  { known := some true
    data := some d
    info := fun m s f =>
      if m = d.ModelNumber ∧ s = d.SerialNumber ∧ f = d.Firmware then some 1
      else if identityDiffers (v.data.getD NVMeDevice.zero) d then none
      else v.info m s f
    gauge := fun g => some (gaugeValue d stats g) }

/-- Effect of the second loop of `runLoop` on the view of a path. -/
def sweepView (v : PathView) : PathView :=
  match v.known with
  | some true => { v with known := some false }
  | some false => ⟨none, v.data, fun _ _ _ => none, fun _ => none⟩
  | none => v

/-- Effect of the first loop of `runLoop` on the view of the path `p`. -/
def loopView (json : Json) (cyc : Cycle) (devs : List NVMeDevice) (p : String) (v : PathView) :
    PathView :=
  match fetchStats json cyc p with
  | none => v
  | some stats =>
    (devs.filter (fun d => d.DevicePath = p)).foldl (fun v d => publishView d stats v) v

/-- Number read off a string by its decimal digits in order, starting from `n`; every other
character is skipped. -/
def decimalFrom (n : Nat) (cs : List Char) : Nat :=
  cs.foldl (fun n c => if isDecDigit c then n * 10 + (c.toNat - 48) else n) n

/-- Number denoted by the decimal digits of a string, separators dropped. -/
def decimalValue (cs : List Char) : Nat :=
  decimalFrom 0 cs

/-- The ten counters: the string field of `rawNVMeStats` and the field of `NVMeStats` that
`parseNVMeStats` fills from it. -/
def counterFields : List ((rawNVMeStats → String) × (NVMeStats → Nat)) :=
  [(rawNVMeStats.DataUnitsRead, NVMeStats.DataUnitsRead),
   (rawNVMeStats.DataUnitsWritten, NVMeStats.DataUnitsWritten),
   (rawNVMeStats.HostReadCommands, NVMeStats.HostReadCommands),
   (rawNVMeStats.HostWriteCommands, NVMeStats.HostWriteCommands),
   (rawNVMeStats.ControllerBusyTime, NVMeStats.ControllerBusyTime),
   (rawNVMeStats.PowerCycles, NVMeStats.PowerCycles),
   (rawNVMeStats.PowerOnHours, NVMeStats.PowerOnHours),
   (rawNVMeStats.UnsafeShutdowns, NVMeStats.UnsafeShutdowns),
   (rawNVMeStats.MediaErrors, NVMeStats.MediaErrors),
   (rawNVMeStats.NumErrLogEntries, NVMeStats.NumErrLogEntries)]

/-! ## Sample data

A toy encoding of the command outputs, used to instantiate the statements: in the output of the
device-list command the byte `n` stands for `sampleDevice n` and the byte 255 makes the output
undecodable; the first byte of a smart-log output is the raw temperature. -/

/-- Three drives, and under number 3 a replacement of drive 0 at the same path. -/
def sampleDevice : Nat → NVMeDevice
  | 0 => ⟨1, "/dev/nvme0n1", "FW1", "M", "S0", 10, 20, 30, 512⟩
  | 1 => ⟨1, "/dev/nvme1n1", "FW1", "M", "S1", 11, 21, 31, 512⟩
  | 2 => ⟨1, "/dev/nvme2n1", "FW1", "M", "S2", 12, 22, 32, 512⟩
  | _ => ⟨1, "/dev/nvme0n1", "FW1", "M", "S9", 13, 23, 33, 512⟩

/-- A decoded smart-log record with raw temperature `t`. -/
def sampleRaw (t : Int) : rawNVMeStats :=
  { CriticalWarning := 0, Temperature := t, AvailSpare := 100, SpareThresh := 10,
    PercentUsed := 1, EnduranceGrpCriticalWarningSummary := 0,
    DataUnitsRead := "1,234,567", DataUnitsWritten := "abc",
    HostReadCommands := "18446744073709551616", HostWriteCommands := "",
    ControllerBusyTime := "5", PowerCycles := "6", PowerOnHours := "7,000",
    UnsafeShutdowns := "8", MediaErrors := "0", NumErrLogEntries := "0",
    WarningTempTime := 0, CriticalCompTime := 0, ThmTemp1TransCount := 0,
    ThmTemp2TransCount := 0, ThmTemp1TotalTime := 0, ThmTemp2TotalTime := 0 }

/-- Decoder of the toy encoding. -/
def sampleJson : Json :=
  { unmarshalDevices := fun out => if 255 ∈ out then none else some ⟨out.map sampleDevice⟩
    unmarshalStats := fun out =>
      match out with
      | [] => none
      | t :: _ => some (sampleRaw t) }

/-- The telemetry that `sampleJson` yields for the smart-log output `[300]`. -/
def sampleStats : NVMeStats :=
  { CriticalWarning := 0, Temperature := kelvinToCelsius 300, AvailSpare := 100,
    SpareThresh := 10, PercentUsed := 1, EnduranceGrpCriticalWarningSummary := 0,
    DataUnitsRead := parse "1,234,567", DataUnitsWritten := parse "abc",
    HostReadCommands := parse "18446744073709551616", HostWriteCommands := parse "",
    ControllerBusyTime := parse "5", PowerCycles := parse "6", PowerOnHours := parse "7,000",
    UnsafeShutdowns := parse "8", MediaErrors := parse "0", NumErrLogEntries := parse "0",
    WarningTempTime := 0, CriticalCompTime := 0, ThmTemp1TransCount := 0,
    ThmTemp2TransCount := 0, ThmTemp1TotalTime := 0, ThmTemp2TotalTime := 0 }

/-- Drives 0, 1 and 2 are listed and answer. -/
def cycleAll : Cycle :=
  ⟨some [0, 1, 2], fun _ => some [300]⟩

/-- Drives 0, 1 and 2 are listed, the smart-log command fails for drive 1. -/
def cycleSecondFails : Cycle :=
  ⟨some [0, 1, 2], fun p => if p = "/dev/nvme1n1" then none else some [300]⟩

/-- Drive 1 is no longer listed. -/
def cycleWithoutSecond : Cycle :=
  ⟨some [0, 2], fun _ => some [300]⟩

/-- Drive 0 has been replaced: same path, other serial number. -/
def cycleReplaced : Cycle :=
  ⟨some [3, 1, 2], fun _ => some [300]⟩

/-- The device-list command fails. -/
def cycleListFails : Cycle :=
  ⟨none, fun _ => some [300]⟩

/-- A backoff whose state is the next interval in seconds: doubled up to 10, reset to 1. -/
def sampleBackOff : BackOff Nat :=
  ⟨fun b => ((b : Int), min (2 * b) 10), fun _ => 1⟩

/-- The info vector restricted to one path when it holds the series of `e` and no other. -/
def infoOf (e : NVMeDevice) : String → String → String → Option ℚ :=
  fun m s f =>
    if m = e.ModelNumber ∧ s = e.SerialNumber ∧ f = e.Firmware then some 1 else none

/-- Last device of `d :: l`. -/
def lastFrom (d : NVMeDevice) (l : List NVMeDevice) : NVMeDevice :=
  l.foldl (fun _ e => e) d

/-- The registry holds at least one series, info or gauge, labelled with the path `p`. -/
def hasSeries (s : Sink) (p : String) : Prop :=
  (∃ m sn fw, s.nvmeInfo p m sn fw ≠ none) ∨ ∃ g, s.gauge g p ≠ none

/-- The reconciler invariant at one path: either the path is a key of `knownDevices` with a
false flag, `deviceData` has a device for it, its only info series is the one of that device
and each of its gauges has a value; or the path is not a key and has no series at all. -/
def PathView.Consistent (v : PathView) : Prop :=
  (v.known = some false ∧
      ∃ dev, v.data = some dev ∧ v.info = infoOf dev ∧ ∀ g, v.gauge g ≠ none) ∨
    (v.known = none ∧ v.info = (fun _ _ _ => none) ∧ v.gauge = fun _ => none)

/-! ## Auxiliary lemmas -/

section Loop
variable {β : Type}

theorem decimalFrom_cons (n : Nat) (c : Char) (cs : List Char) :
    decimalFrom n (c :: cs) = decimalFrom (if isDecDigit c then n * 10 + (c.toNat - 48) else n) cs := rfl

theorem le_decimalFrom (cs : List Char) (n : Nat) : n ≤ decimalFrom n cs := by
  induction cs generalizing n with
  | nil => exact le_refl n
  | cons c cs ih =>
    rw [decimalFrom_cons]
    refine le_trans ?_ (ih _)
    split <;> omega

theorem parseUintLoop_digits (cs : List Char) (n : Nat) (hn : n < 2 ^ 64)
    (h : ∀ c ∈ cs, isDecDigit c = true) :
    parseUintLoop cs n =
      if decimalFrom n cs < 2 ^ 64 then (decimalFrom n cs, none)
      else (maxUint64, some NumError.outOfRange) := by
  induction cs generalizing n with
  | nil => simp only [parseUintLoop, decimalFrom, List.foldl_nil, if_pos hn]
  | cons c cs ih =>
    have hc : isDecDigit c = true := h c (List.mem_cons_self _ _)
    have hcs : ∀ x ∈ cs, isDecDigit x = true := fun x hx => h x (List.mem_cons_of_mem _ hx)
    have hd : c.toNat - 48 ≤ 9 := by
      simp only [isDecDigit, Bool.and_eq_true, decide_eq_true_eq] at hc
      omega
    rw [decimalFrom_cons, if_pos hc]
    have hle := le_decimalFrom cs (n * 10 + (c.toNat - 48))
    unfold parseUintLoop
    rw [if_pos hc]
    by_cases hcut : n ≥ cutoff
    · have : ¬ decimalFrom (n * 10 + (c.toNat - 48)) cs < 2 ^ 64 := by
        simp only [cutoff, maxUint64] at hcut
        omega
      simp only [hcut, if_true, this, if_false]
    · simp only [hcut, if_false]
      have hn10 : n * 10 < 2 ^ 64 := by
        simp only [cutoff, maxUint64] at hcut
        omega
      rw [Nat.mod_eq_of_lt hn10]
      by_cases hov : n * 10 + (c.toNat - 48) < 2 ^ 64
      · rw [Nat.mod_eq_of_lt hov]
        have h1 : ¬ (n * 10 + (c.toNat - 48) < n * 10 ∨ n * 10 + (c.toNat - 48) > maxUint64) := by
          simp only [maxUint64]
          omega
        simp only [h1, if_false]
        exact ih _ hov hcs
      · have hmod : (n * 10 + (c.toNat - 48)) % 2 ^ 64 = n * 10 + (c.toNat - 48) - 2 ^ 64 := by
          rw [Nat.mod_eq_sub_mod (by omega), Nat.mod_eq_of_lt (by omega)]
        rw [hmod]
        have h1 : (n * 10 + (c.toNat - 48) - 2 ^ 64 < n * 10 ∨
            n * 10 + (c.toNat - 48) - 2 ^ 64 > maxUint64) := by
          left; omega
        have : ¬ decimalFrom (n * 10 + (c.toNat - 48)) cs < 2 ^ 64 := by omega
        simp only [h1, if_true, this, if_false]

theorem deviceStep_eq (json : Json) (cyc : Cycle) (st : LoopState β) (d : NVMeDevice) :
    deviceStep json cyc st d =
      match fetchStats json cyc d.DevicePath with
      | none => { st with hasErrors := true }
      | some stats => publishDevice d stats st := by
  unfold deviceStep fetchStats
  cases cyc.smartLog d.DevicePath <;> rfl

theorem runLoop_of_list_none (json : Json) (cyc : Cycle) (a : App β) (s : Sink)
    (h : listDevices json cyc = none) : runLoop json cyc a s = ⟨false, a, s, []⟩ := by
  unfold listDevices at h
  unfold runLoop
  cases h1 : cyc.nvmeList with
  | none => rfl
  | some out =>
    simp only [h1] at h
    cases h2 : json.unmarshalDevices out with
    | none => simp only [h2]
    | some ds => simp only [h2] at h; cases h

theorem runLoop_of_list_some (json : Json) (cyc : Cycle) (a : App β) (s : Sink)
    (devs : List NVMeDevice) (h : listDevices json cyc = some devs) :
    runLoop json cyc a s =
      ⟨!(afterSweep (afterDevices json cyc devs a s)).hasErrors,
        (afterSweep (afterDevices json cyc devs a s)).app,
        (afterSweep (afterDevices json cyc devs a s)).sink,
        (afterSweep (afterDevices json cyc devs a s)).calls⟩ := by
  unfold listDevices at h
  unfold runLoop
  cases h1 : cyc.nvmeList with
  | none => simp only [h1] at h; cases h
  | some out =>
    simp only [h1] at h
    cases h2 : json.unmarshalDevices out with
    | none => simp only [h2] at h; cases h
    | some ds =>
      simp only [h2, Option.some.injEq] at h
      subst h
      simp only [h2]
      rfl

theorem foldl_deviceStep_hasErrors (json : Json) (cyc : Cycle) (devs : List NVMeDevice)
    (st : LoopState β) :
    (devs.foldl (deviceStep json cyc) st).hasErrors =
      (st.hasErrors || devs.any (fun d => (fetchStats json cyc d.DevicePath).isNone)) := by
  induction devs generalizing st with
  | nil => simp
  | cons d ds ih =>
    rw [List.foldl_cons, ih, deviceStep_eq]
    cases h : fetchStats json cyc d.DevicePath with
    | none => simp [h]
    | some stats => simp [h, publishDevice, LoopState.emit]

theorem foldl_sweepStep_hasErrors (es : List ((_ : String) × Bool)) (st : LoopState β) :
    (es.foldl sweepStep st).hasErrors = st.hasErrors := by
  induction es generalizing st with
  | nil => rfl
  | cons e es ih =>
    rw [List.foldl_cons, ih]
    unfold sweepStep
    split <;> rfl

theorem Gauge.mem_all (g : Gauge) : g ∈ Gauge.all := by
  cases g <;> simp [Gauge.all]

theorem foldl_apply_setGauge (l : List Gauge) (p : String) (val : Gauge → ℚ) (s : Sink) :
    (l.map (fun g => SinkOp.setGauge g p (val g))).foldl Sink.apply s =
      { s with gauge := fun g' d' => if g' ∈ l ∧ d' = p then some (val g') else s.gauge g' d' } := by
  induction l generalizing s with
  | nil => simp
  | cons g l ih =>
    rw [List.map_cons, List.foldl_cons, ih]
    simp only [Sink.apply, Sink.mk.injEq, true_and, and_true]
    funext g' d'
    by_cases h1 : g' ∈ l ∧ d' = p
    · have : g' ∈ g :: l ∧ d' = p := ⟨List.mem_cons_of_mem _ h1.1, h1.2⟩
      rw [if_pos h1, if_pos this]
    · rw [if_neg h1]
      by_cases h2 : g' = g ∧ d' = p
      · have : g' ∈ g :: l ∧ d' = p := ⟨h2.1 ▸ List.mem_cons_self _ _, h2.2⟩
        rw [if_pos h2, if_pos this, h2.1]
      · have : ¬ (g' ∈ g :: l ∧ d' = p) := by
          rintro ⟨h3, h4⟩
          rcases List.mem_cons.1 h3 with h5 | h5
          · exact h2 ⟨h5, h4⟩
          · exact h1 ⟨h5, h4⟩
        rw [if_neg h2, if_neg this]

theorem foldl_apply_deleteGauge (l : List Gauge) (p : String) (s : Sink) :
    (l.map (fun g => SinkOp.deleteGauge g p)).foldl Sink.apply s =
      { s with gauge := fun g' d' => if g' ∈ l ∧ d' = p then none else s.gauge g' d' } := by
  induction l generalizing s with
  | nil => simp
  | cons g l ih =>
    rw [List.map_cons, List.foldl_cons, ih]
    simp only [Sink.apply, Sink.mk.injEq, true_and, and_true]
    funext g' d'
    by_cases h1 : g' ∈ l ∧ d' = p
    · have : g' ∈ g :: l ∧ d' = p := ⟨List.mem_cons_of_mem _ h1.1, h1.2⟩
      rw [if_pos h1, if_pos this]
    · rw [if_neg h1]
      by_cases h2 : g' = g ∧ d' = p
      · have : g' ∈ g :: l ∧ d' = p := ⟨h2.1 ▸ List.mem_cons_self _ _, h2.2⟩
        rw [if_pos h2, if_pos this]
      · have : ¬ (g' ∈ g :: l ∧ d' = p) := by
          rintro ⟨h3, h4⟩
          rcases List.mem_cons.1 h3 with h5 | h5
          · exact h2 ⟨h5, h4⟩
          · exact h1 ⟨h5, h4⟩
        rw [if_neg h2, if_neg this]

theorem foldl_apply_publishCalls (prev d : NVMeDevice) (stats : NVMeStats) (s : Sink) :
    (publishCalls prev d stats).foldl Sink.apply s =
      { nvmeInfo := fun d' m sn fw =>
          if d' = d.DevicePath ∧ m = d.ModelNumber ∧ sn = d.SerialNumber ∧ fw = d.Firmware then
            some 1
          else if d' = d.DevicePath ∧ identityDiffers prev d = true then none
          else s.nvmeInfo d' m sn fw
        gauge := fun g' d' =>
          if d' = d.DevicePath then some (gaugeValue d stats g') else s.gauge g' d'
        loopRuns := s.loopRuns } := by
  unfold publishCalls
  rw [List.foldl_append, List.foldl_cons, foldl_apply_setGauge]
  by_cases hd : identityDiffers prev d = true
  · simp only [hd, if_true, List.foldl_cons, List.foldl_nil, Sink.apply, Gauge.mem_all, true_and,
      and_true]
  · simp only [hd, if_false, List.foldl_nil, Sink.apply, Gauge.mem_all, true_and, and_false,
      Bool.false_eq_true]

theorem foldl_apply_evictCalls (p : String) (s : Sink) :
    (evictCalls p).foldl Sink.apply s =
      { nvmeInfo := fun d' m sn fw => if d' = p then none else s.nvmeInfo d' m sn fw
        gauge := fun g' d' => if d' = p then none else s.gauge g' d'
        loopRuns := s.loopRuns } := by
  unfold evictCalls
  rw [List.foldl_cons, foldl_apply_deleteGauge]
  simp only [Sink.apply, Gauge.mem_all, true_and]

theorem publishDevice_view_self (d : NVMeDevice) (stats : NVMeStats) (st : LoopState β) :
    (publishDevice d stats st).view d.DevicePath = publishView d stats (st.view d.DevicePath) := by
  simp only [LoopState.view, publishDevice, LoopState.emit, foldl_apply_publishCalls, publishView,
    AList.lookup_insert, Function.update_same, true_and, if_true]

theorem publishDevice_view_ne (d : NVMeDevice) (stats : NVMeStats) (st : LoopState β)
    (p : String) (h : d.DevicePath ≠ p) :
    (publishDevice d stats st).view p = st.view p := by
  have h' : p ≠ d.DevicePath := fun e => h e.symm
  simp only [LoopState.view, publishDevice, LoopState.emit, foldl_apply_publishCalls,
    AList.lookup_insert_ne h', Function.update_noteq h', h', false_and, if_false]

theorem deviceStep_view_ne (json : Json) (cyc : Cycle) (st : LoopState β) (d : NVMeDevice)
    (p : String) (h : d.DevicePath ≠ p) : (deviceStep json cyc st d).view p = st.view p := by
  rw [deviceStep_eq]
  cases fetchStats json cyc d.DevicePath with
  | none => rfl
  | some stats => exact publishDevice_view_ne d stats st p h

theorem foldl_deviceStep_view (json : Json) (cyc : Cycle) (devs : List NVMeDevice)
    (st : LoopState β) (p : String) :
    (devs.foldl (deviceStep json cyc) st).view p = loopView json cyc devs p (st.view p) := by
  induction devs generalizing st with
  | nil =>
    unfold loopView
    cases fetchStats json cyc p <;> rfl
  | cons d ds ih =>
    rw [List.foldl_cons, ih]
    by_cases h : d.DevicePath = p
    · unfold loopView
      rw [deviceStep_eq, h]
      cases hf : fetchStats json cyc p with
      | none => rfl
      | some stats =>
        simp only [List.filter_cons, h, decide_True, if_true, List.foldl_cons]
        rw [← h, publishDevice_view_self]
    · rw [deviceStep_view_ne json cyc st d p h]
      unfold loopView
      cases hf : fetchStats json cyc p with
      | none => rfl
      | some stats =>
        simp only [List.filter_cons, h, decide_False, Bool.false_eq_true, if_false]

theorem sweepStep_view_ne (st : LoopState β) (e : (_ : String) × Bool) (p : String)
    (h : e.1 ≠ p) : (sweepStep st e).view p = st.view p := by
  have h' : p ≠ e.1 := fun x => h x.symm
  unfold sweepStep
  split
  · simp only [LoopState.view, AList.lookup_insert_ne h']
  · simp only [LoopState.view, LoopState.emit, foldl_apply_evictCalls, AList.lookup_erase_ne h',
      h', if_false]

theorem sweepStep_view_self (st : LoopState β) (e : (_ : String) × Bool) :
    (sweepStep st e).view e.1 =
      if e.2 then { st.view e.1 with known := some false }
      else ⟨none, (st.view e.1).data, fun _ _ _ => none, fun _ => none⟩ := by
  unfold sweepStep
  split
  · simp only [LoopState.view, AList.lookup_insert]
  · simp only [LoopState.view, LoopState.emit, foldl_apply_evictCalls, AList.lookup_erase,
      if_true]

theorem foldl_sweepStep_view (es : List ((_ : String) × Bool)) (hnd : es.NodupKeys)
    (st : LoopState β) (p : String) :
    (es.foldl sweepStep st).view p =
      match es.dlookup p with
      | some true => { st.view p with known := some false }
      | some false => ⟨none, (st.view p).data, fun _ _ _ => none, fun _ => none⟩
      | none => st.view p := by
  induction es generalizing st with
  | nil => rfl
  | cons e es ih =>
    rw [List.nodupKeys_cons] at hnd
    rw [List.foldl_cons, ih hnd.2]
    by_cases h : e.1 = p
    · subst h
      have hn : es.dlookup e.1 = none := List.dlookup_eq_none.2 hnd.1
      rw [hn, List.dlookup_cons_eq, sweepStep_view_self]
      cases e.2 <;> rfl
    · rw [sweepStep_view_ne st e p h, List.dlookup_cons_ne _ _ (fun x => h x.symm)]

theorem afterSweep_view (st : LoopState β) (p : String) :
    (afterSweep st).view p = sweepView (st.view p) := by
  unfold afterSweep
  rw [foldl_sweepStep_view _ st.app.knownDevices.nodupKeys]
  rfl

theorem publishCalls_device (prev d : NVMeDevice) (stats : NVMeStats) (op : SinkOp)
    (h : op ∈ publishCalls prev d stats) :
    op.device = d.DevicePath ∧ (∀ g, op ≠ SinkOp.deleteGauge g d.DevicePath) := by
  unfold publishCalls at h
  rcases List.mem_append.1 h with h | h
  · split at h
    · rw [List.mem_singleton] at h
      subst h
      exact ⟨rfl, fun g hg => by cases hg⟩
    · cases h
  · rcases List.mem_cons.1 h with h | h
    · subst h
      exact ⟨rfl, fun g hg => by cases hg⟩
    · obtain ⟨g, -, rfl⟩ := List.mem_map.1 h
      exact ⟨rfl, fun g hg => by cases hg⟩

theorem evictCalls_device (p : String) (op : SinkOp) (h : op ∈ evictCalls p) :
    op.device = p ∧ (op = SinkOp.deleteInfo p ∨ ∃ g, op = SinkOp.deleteGauge g p) := by
  unfold evictCalls at h
  rcases List.mem_cons.1 h with h | h
  · subst h
    exact ⟨rfl, Or.inl rfl⟩
  · obtain ⟨g, -, rfl⟩ := List.mem_map.1 h
    exact ⟨rfl, Or.inr ⟨g, rfl⟩⟩

theorem deleteInfo_mem_evictCalls (p : String) : SinkOp.deleteInfo p ∈ evictCalls p :=
  List.mem_cons_self _ _

theorem deleteGauge_mem_evictCalls (p : String) (g : Gauge) :
    SinkOp.deleteGauge g p ∈ evictCalls p :=
  List.mem_cons_of_mem _ (List.mem_map.2 ⟨g, Gauge.mem_all g, rfl⟩)

theorem setInfo_mem_publishCalls (prev d : NVMeDevice) (stats : NVMeStats) :
    SinkOp.setInfo d.DevicePath d.ModelNumber d.SerialNumber d.Firmware ∈
      publishCalls prev d stats :=
  List.mem_append_right _ (List.mem_cons_self _ _)

theorem setGauge_mem_publishCalls (prev d : NVMeDevice) (stats : NVMeStats) (g : Gauge) :
    SinkOp.setGauge g d.DevicePath (gaugeValue d stats g) ∈ publishCalls prev d stats :=
  List.mem_append_right _
    (List.mem_cons_of_mem _ (List.mem_map.2 ⟨g, Gauge.mem_all g, rfl⟩))

theorem foldl_deviceStep_calls (json : Json) (cyc : Cycle) (devs : List NVMeDevice)
    (st : LoopState β) :
    ∃ new, (devs.foldl (deviceStep json cyc) st).calls = st.calls ++ new ∧
      ∀ op ∈ new, ∃ d ∈ devs, ∃ stats prev,
        fetchStats json cyc d.DevicePath = some stats ∧ op ∈ publishCalls prev d stats := by
  induction devs generalizing st with
  | nil => exact ⟨[], by simp, fun op h => by cases h⟩
  | cons d ds ih =>
    obtain ⟨new, h1, h2⟩ := ih (deviceStep json cyc st d)
    rw [List.foldl_cons, h1, deviceStep_eq]
    cases hf : fetchStats json cyc d.DevicePath with
    | none =>
      refine ⟨new, rfl, fun op hop => ?_⟩
      obtain ⟨e, he, x⟩ := h2 op hop
      exact ⟨e, List.mem_cons_of_mem _ he, x⟩
    | some stats =>
      refine ⟨publishCalls ((st.app.deviceData d.DevicePath).getD NVMeDevice.zero) d stats ++ new,
        ?_, fun op hop => ?_⟩
      · simp only [publishDevice, LoopState.emit, List.append_assoc]
      · rcases List.mem_append.1 hop with hop | hop
        · exact ⟨d, List.mem_cons_self _ _, stats, _, hf, hop⟩
        · obtain ⟨e, he, x⟩ := h2 op hop
          exact ⟨e, List.mem_cons_of_mem _ he, x⟩

theorem foldl_deviceStep_calls_mem (json : Json) (cyc : Cycle) (devs : List NVMeDevice)
    (st : LoopState β) (d : NVMeDevice) (hd : d ∈ devs) (stats : NVMeStats)
    (hf : fetchStats json cyc d.DevicePath = some stats) :
    ∃ prev, ∀ op ∈ publishCalls prev d stats, op ∈ (devs.foldl (deviceStep json cyc) st).calls := by
  induction devs generalizing st with
  | nil => cases hd
  | cons e ds ih =>
    rw [List.foldl_cons]
    rcases List.mem_cons.1 hd with h | h
    · subst h
      obtain ⟨new, h1, -⟩ := foldl_deviceStep_calls json cyc ds (deviceStep json cyc st d)
      refine ⟨(st.app.deviceData d.DevicePath).getD NVMeDevice.zero, fun op hop => ?_⟩
      rw [h1, deviceStep_eq, hf]
      simp only [publishDevice, LoopState.emit]
      exact List.mem_append_left _ (List.mem_append_right _ hop)
    · exact ih _ h

theorem foldl_sweepStep_calls (es : List ((_ : String) × Bool)) (st : LoopState β) :
    ∃ new, (es.foldl sweepStep st).calls = st.calls ++ new ∧
      ∀ op, op ∈ new ↔ ∃ e ∈ es, e.2 = false ∧ op ∈ evictCalls e.1 := by
  induction es generalizing st with
  | nil => exact ⟨[], by simp, fun op => by simp⟩
  | cons e es ih =>
    obtain ⟨new, h1, h2⟩ := ih (sweepStep st e)
    rw [List.foldl_cons, h1]
    cases he : e.2 with
    | true =>
      refine ⟨new, ?_, fun op => ?_⟩
      · simp only [sweepStep, he, if_true]
      · rw [h2]
        constructor
        · rintro ⟨x, hx, y⟩
          exact ⟨x, List.mem_cons_of_mem _ hx, y⟩
        · rintro ⟨x, hx, y1, y2⟩
          rcases List.mem_cons.1 hx with h | h
          · subst h
            rw [he] at y1
            cases y1
          · exact ⟨x, h, y1, y2⟩
    | false =>
      refine ⟨evictCalls e.1 ++ new, ?_, fun op => ?_⟩
      · simp only [sweepStep, he, Bool.false_eq_true, if_false, LoopState.emit, List.append_assoc]
      · rw [List.mem_append, h2]
        constructor
        · rintro (h | ⟨x, hx, y⟩)
          · exact ⟨e, List.mem_cons_self _ _, he, h⟩
          · exact ⟨x, List.mem_cons_of_mem _ hx, y⟩
        · rintro ⟨x, hx, y1, y2⟩
          rcases List.mem_cons.1 hx with h | h
          · subst h
            exact Or.inl y2
          · exact Or.inr ⟨x, h, y1, y2⟩

theorem runLoop_view (json : Json) (cyc : Cycle) (a : App β) (s : Sink)
    (devs : List NVMeDevice) (h : listDevices json cyc = some devs) (p : String) :
    viewOf (runLoop json cyc a s).app (runLoop json cyc a s).sink p =
      sweepView (loopView json cyc devs p (viewOf a s p)) := by
  rw [runLoop_of_list_some json cyc a s devs h]
  show (afterSweep (afterDevices json cyc devs a s)).view p = _
  rw [afterSweep_view]
  unfold afterDevices
  rw [foldl_deviceStep_view]
  rfl

theorem runLoop_calls (json : Json) (cyc : Cycle) (a : App β) (s : Sink)
    (devs : List NVMeDevice) (h : listDevices json cyc = some devs) :
    ∃ pub evict, (runLoop json cyc a s).calls = pub ++ evict ∧
      pub = (afterDevices json cyc devs a s).calls ∧
      (∀ op ∈ pub, ∃ d ∈ devs, ∃ stats prev,
        fetchStats json cyc d.DevicePath = some stats ∧ op ∈ publishCalls prev d stats) ∧
      (∀ op, op ∈ evict ↔ ∃ q,
        (loopView json cyc devs q (viewOf a s q)).known = some false ∧ op ∈ evictCalls q) := by
  rw [runLoop_of_list_some json cyc a s devs h]
  obtain ⟨new1, h1, h2⟩ := foldl_deviceStep_calls json cyc devs ⟨a, s, [], false⟩
  obtain ⟨new2, h3, h4⟩ := foldl_sweepStep_calls
    (afterDevices json cyc devs a s).app.knownDevices.entries (afterDevices json cyc devs a s)
  refine ⟨new1, new2, ?_, ?_, h2, fun op => ?_⟩
  · show (afterSweep _).calls = _
    unfold afterSweep
    rw [h3]
    unfold afterDevices
    rw [h1]
    rfl
  · unfold afterDevices
    rw [h1]
    rfl
  · rw [h4]
    have hv : ∀ q, (loopView json cyc devs q (viewOf a s q)).known =
        (afterDevices json cyc devs a s).app.knownDevices.lookup q := by
      intro q
      have := foldl_deviceStep_view json cyc devs ⟨a, s, [], false⟩ q
      unfold afterDevices
      exact (congrArg PathView.known this).symm
    constructor
    · rintro ⟨e, he, h5, h6⟩
      refine ⟨e.1, ?_, h6⟩
      rw [hv]
      obtain ⟨k, b⟩ := e
      simp only at h5
      subst h5
      exact Option.mem_def.1 (AList.mem_lookup_iff.2 he)
    · rintro ⟨q, h5, h6⟩
      rw [hv] at h5
      exact ⟨⟨q, false⟩, AList.mem_lookup_iff.1 (Option.mem_def.2 h5), rfl, h6⟩

theorem foldl_publishView_of_ne_nil (stats : NVMeStats) (l : List NVMeDevice) (hl : l ≠ [])
    (v : PathView) :
    (l.foldl (fun v d => publishView d stats v) v).known = some true ∧
      (l.foldl (fun v d => publishView d stats v) v).data = some (l.getLast hl) ∧
      (l.foldl (fun v d => publishView d stats v) v).gauge =
        fun g => some (gaugeValue (l.getLast hl) stats g) := by
  induction l generalizing v with
  | nil => exact absurd rfl hl
  | cons d ds ih =>
    rw [List.foldl_cons]
    cases ds with
    | nil => exact ⟨rfl, rfl, rfl⟩
    | cons e es =>
      have := ih (List.cons_ne_nil e es) (publishView d stats v)
      rw [List.getLast_cons (List.cons_ne_nil e es)]
      exact this

theorem loopView_of_not_listed (json : Json) (cyc : Cycle) (devs : List NVMeDevice) (p : String)
    (h : ∀ d ∈ devs, d.DevicePath ≠ p) (v : PathView) : loopView json cyc devs p v = v := by
  unfold loopView
  have : devs.filter (fun d => d.DevicePath = p) = [] := by
    rw [List.filter_eq_nil_iff]
    intro d hd
    simpa using h d hd
  rw [this]
  cases fetchStats json cyc p <;> rfl

theorem loopView_of_failed (json : Json) (cyc : Cycle) (devs : List NVMeDevice) (p : String)
    (h : fetchStats json cyc p = none) (v : PathView) : loopView json cyc devs p v = v := by
  unfold loopView
  rw [h]

theorem loopView_known_of_listed (json : Json) (cyc : Cycle) (devs : List NVMeDevice)
    (d : NVMeDevice) (hd : d ∈ devs) (stats : NVMeStats)
    (hf : fetchStats json cyc d.DevicePath = some stats) (v : PathView) :
    (loopView json cyc devs d.DevicePath v).known = some true := by
  unfold loopView
  rw [hf]
  have hne : devs.filter (fun e => e.DevicePath = d.DevicePath) ≠ [] := by
    intro h
    rw [List.filter_eq_nil_iff] at h
    exact h d hd (by simp)
  exact (foldl_publishView_of_ne_nil stats _ hne v).1

theorem fetchStats_eq_some_iff (json : Json) (cyc : Cycle) (p : String) (stats : NVMeStats) :
    fetchStats json cyc p = some stats ↔
      ∃ jsonOutput, cyc.smartLog p = some jsonOutput ∧
        parseNVMeStats json.unmarshalStats jsonOutput = some stats := by
  unfold fetchStats
  cases cyc.smartLog p with
  | none => simp
  | some out => simp

theorem listDevices_eq_some_iff (json : Json) (cyc : Cycle) (devs : List NVMeDevice) :
    listDevices json cyc = some devs ↔
      ∃ out devices, cyc.nvmeList = some out ∧ json.unmarshalDevices out = some devices ∧
        devices.Devices = devs := by
  unfold listDevices
  cases cyc.nvmeList with
  | none => simp
  | some out =>
    cases h : json.unmarshalDevices out with
    | none => simp [h]
    | some ds => simp [h]

theorem runLoop_success_of_list_some (json : Json) (cyc : Cycle) (a : App β) (s : Sink)
    (devs : List NVMeDevice) (h : listDevices json cyc = some devs) :
    (runLoop json cyc a s).success =
      !devs.any (fun d => (fetchStats json cyc d.DevicePath).isNone) := by
  rw [runLoop_of_list_some json cyc a s devs h]
  show (!(afterSweep (afterDevices json cyc devs a s)).hasErrors) = _
  unfold afterSweep afterDevices
  rw [foldl_sweepStep_hasErrors, foldl_deviceStep_hasErrors]
  rfl

theorem foldl_deviceStep_calls_split (json : Json) (cyc : Cycle) (l1 l2 : List NVMeDevice)
    (d : NVMeDevice) (stats : NVMeStats) (st : LoopState β)
    (h1 : ∀ e ∈ l1, e.DevicePath ≠ d.DevicePath) (h2 : ∀ e ∈ l2, e.DevicePath ≠ d.DevicePath)
    (hf : fetchStats json cyc d.DevicePath = some stats) :
    ∃ pre post, ((l1 ++ d :: l2).foldl (deviceStep json cyc) st).calls =
        st.calls ++ pre ++
          publishCalls ((st.app.deviceData d.DevicePath).getD NVMeDevice.zero) d stats ++ post ∧
      (∀ op ∈ pre, op.device ≠ d.DevicePath) ∧ (∀ op ∈ post, op.device ≠ d.DevicePath) := by
  obtain ⟨pre, hpre, hpre2⟩ := foldl_deviceStep_calls json cyc l1 st
  obtain ⟨post, hpost, hpost2⟩ := foldl_deviceStep_calls json cyc l2
    (deviceStep json cyc (l1.foldl (deviceStep json cyc) st) d)
  have hv := foldl_deviceStep_view json cyc l1 st d.DevicePath
  rw [loopView_of_not_listed json cyc l1 d.DevicePath h1] at hv
  have hdata : (l1.foldl (deviceStep json cyc) st).app.deviceData d.DevicePath =
      st.app.deviceData d.DevicePath := congrArg PathView.data hv
  refine ⟨pre, post, ?_, fun op hop => ?_, fun op hop => ?_⟩
  · rw [List.foldl_append, List.foldl_cons, hpost, deviceStep_eq, hf]
    simp only [publishDevice, LoopState.emit, hpre, hdata]
  · obtain ⟨e, he, st', prev, -, hmem⟩ := hpre2 op hop
    rw [(publishCalls_device prev e st' op hmem).1]
    exact h1 e he
  · obtain ⟨e, he, st', prev, -, hmem⟩ := hpost2 op hop
    rw [(publishCalls_device prev e st' op hmem).1]
    exact h2 e he

theorem identityDiffers_eq_true_iff (prev d : NVMeDevice) :
    identityDiffers prev d = true ↔
      prev.ModelNumber ≠ d.ModelNumber ∨ prev.SerialNumber ≠ d.SerialNumber ∨
        prev.Firmware ≠ d.Firmware := by
  simp [identityDiffers, or_assoc]

theorem loopView_of_listed_once (json : Json) (cyc : Cycle) (devs : List NVMeDevice)
    (p : String) (d : NVMeDevice) (stats : NVMeStats)
    (honly : devs.filter (fun e => e.DevicePath = p) = [d])
    (hf : fetchStats json cyc p = some stats) (v : PathView) :
    loopView json cyc devs p v = publishView d stats v := by
  unfold loopView
  rw [hf, honly]
  rfl

theorem sweepView_data (v : PathView) : (sweepView v).data = v.data := by
  unfold sweepView
  split <;> rfl

theorem sweepView_of_known_ne_false (v : PathView) (h : v.known ≠ some false) :
    (sweepView v).info = v.info ∧ (sweepView v).gauge = v.gauge := by
  unfold sweepView
  split
  · exact ⟨rfl, rfl⟩
  · rename_i h'
    exact absurd h' h
  · exact ⟨rfl, rfl⟩

theorem sweepView_known (v : PathView) :
    (sweepView v).known =
      match v.known with
      | some true => some false
      | _ => none := by
  unfold sweepView
  split
  · rename_i h
    simp only [h]
  · rename_i h
    simp only [h]
  · rename_i h
    simp only [h]

theorem loopView_gauge_of_listed (json : Json) (cyc : Cycle) (devs : List NVMeDevice)
    (d : NVMeDevice) (hd : d ∈ devs) (stats : NVMeStats)
    (hf : fetchStats json cyc d.DevicePath = some stats) (v : PathView) (g : Gauge) :
    ((loopView json cyc devs d.DevicePath v).gauge g).isSome = true := by
  unfold loopView
  rw [hf]
  have hne : devs.filter (fun e => e.DevicePath = d.DevicePath) ≠ [] := by
    intro h
    rw [List.filter_eq_nil_iff] at h
    exact h d hd (by simp)
  rw [(foldl_publishView_of_ne_nil stats _ hne v).2.2]
  rfl

theorem parseUintLoop_error (cs : List Char) (n : Nat) :
    ((parseUintLoop cs n).2 = some NumError.malformed → (parseUintLoop cs n).1 = 0) ∧
      ((parseUintLoop cs n).2 = some NumError.outOfRange →
        (parseUintLoop cs n).1 = maxUint64) := by
  induction cs generalizing n with
  | nil => simp [parseUintLoop]
  | cons c cs ih =>
    unfold parseUintLoop
    split
    · split
      · simp
      · simp only []
        split
        · simp
        · exact ih _
    · simp

theorem parseNumberWithCommas_error (s : String) :
    ((parseNumberWithCommas s).2 = some NumError.malformed → parse s = 0) ∧
      ((parseNumberWithCommas s).2 = some NumError.outOfRange → parse s = maxUint64) := by
  unfold parse parseNumberWithCommas ParseUint
  split
  · simp
  · exact parseUintLoop_error _ 0

theorem parseNumberWithCommas_digits (s : String)
    (hne : (removeCommas s).data ≠ [])
    (hdig : ∀ c ∈ (removeCommas s).data, isDecDigit c = true) :
    parseNumberWithCommas s =
      if decimalValue (removeCommas s).data < 2 ^ 64 then
        (decimalValue (removeCommas s).data, none)
      else (maxUint64, some NumError.outOfRange) := by
  unfold parseNumberWithCommas ParseUint
  rw [if_neg hne]
  exact parseUintLoop_digits _ 0 (by norm_num) hdig

theorem decimalFrom_filter (cs : List Char) (n : Nat) (p : Char → Bool)
    (h : ∀ c ∈ cs, isDecDigit c = true → p c = true) :
    decimalFrom n (cs.filter p) = decimalFrom n cs := by
  induction cs generalizing n with
  | nil => rfl
  | cons c cs ih =>
    have hcs : ∀ x ∈ cs, isDecDigit x = true → p x = true :=
      fun x hx => h x (List.mem_cons_of_mem _ hx)
    by_cases hc : isDecDigit c = true
    · have hp : p c = true := h c (List.mem_cons_self _ _) hc
      rw [List.filter_cons_of_pos hp, decimalFrom_cons, decimalFrom_cons, ih _ hcs]
    · by_cases hp : p c = true
      · rw [List.filter_cons_of_pos hp, decimalFrom_cons, decimalFrom_cons, ih _ hcs]
      · rw [List.filter_cons_of_neg hp, decimalFrom_cons, if_neg hc, ih _ hcs]

theorem isDecDigit_ne_comma (c : Char) (h : isDecDigit c = true) : c ≠ ',' := by
  rintro rfl
  revert h
  decide

theorem decimalValue_removeCommas (s : String) :
    decimalValue (removeCommas s).data = decimalValue s.data := by
  unfold decimalValue removeCommas
  exact decimalFrom_filter _ 0 _ (fun c _ hc => by simpa using isDecDigit_ne_comma c hc)

theorem parseNVMeStats_counters (unmarshal : List Nat → Option rawNVMeStats) (data : List Nat)
    (raw : rawNVMeStats) (h : unmarshal data = some raw) :
    ∃ stats, parseNVMeStats unmarshal data = some stats ∧
      ∀ f ∈ counterFields, f.2 stats = parse (f.1 raw) := by
  unfold parseNVMeStats
  rw [h]
  refine ⟨_, rfl, fun f hf => ?_⟩
  simp only [counterFields, List.mem_cons, List.mem_singleton, List.not_mem_nil, or_false] at hf
  rcases hf with hf | hf | hf | hf | hf | hf | hf | hf | hf | hf <;> subst hf <;> rfl

theorem Sink.apply_loopRuns (s : Sink) (op : SinkOp) : (s.apply op).loopRuns = s.loopRuns := by
  cases op <;> rfl

theorem foldl_apply_loopRuns (ops : List SinkOp) (s : Sink) :
    (ops.foldl Sink.apply s).loopRuns = s.loopRuns := by
  induction ops generalizing s with
  | nil => rfl
  | cons op ops ih => rw [List.foldl_cons, ih, Sink.apply_loopRuns]

theorem deviceStep_frame (json : Json) (cyc : Cycle) (st : LoopState β) (d : NVMeDevice) :
    (deviceStep json cyc st d).app.b = st.app.b ∧
      (deviceStep json cyc st d).app.checkInterval = st.app.checkInterval ∧
      (deviceStep json cyc st d).sink.loopRuns = st.sink.loopRuns := by
  rw [deviceStep_eq]
  cases fetchStats json cyc d.DevicePath with
  | none => exact ⟨rfl, rfl, rfl⟩
  | some stats => exact ⟨rfl, rfl, foldl_apply_loopRuns _ _⟩

theorem sweepStep_frame (st : LoopState β) (e : (_ : String) × Bool) :
    (sweepStep st e).app.b = st.app.b ∧
      (sweepStep st e).app.checkInterval = st.app.checkInterval ∧
      (sweepStep st e).sink.loopRuns = st.sink.loopRuns := by
  unfold sweepStep
  split
  · exact ⟨rfl, rfl, rfl⟩
  · exact ⟨rfl, rfl, foldl_apply_loopRuns _ _⟩

theorem foldl_deviceStep_frame (json : Json) (cyc : Cycle) (devs : List NVMeDevice)
    (st : LoopState β) :
    (devs.foldl (deviceStep json cyc) st).app.b = st.app.b ∧
      (devs.foldl (deviceStep json cyc) st).app.checkInterval = st.app.checkInterval ∧
      (devs.foldl (deviceStep json cyc) st).sink.loopRuns = st.sink.loopRuns := by
  induction devs generalizing st with
  | nil => exact ⟨rfl, rfl, rfl⟩
  | cons d ds ih =>
    rw [List.foldl_cons]
    obtain ⟨h1, h2, h3⟩ := ih (deviceStep json cyc st d)
    obtain ⟨h4, h5, h6⟩ := deviceStep_frame json cyc st d
    exact ⟨h1.trans h4, h2.trans h5, h3.trans h6⟩

theorem foldl_sweepStep_frame (es : List ((_ : String) × Bool)) (st : LoopState β) :
    (es.foldl sweepStep st).app.b = st.app.b ∧
      (es.foldl sweepStep st).app.checkInterval = st.app.checkInterval ∧
      (es.foldl sweepStep st).sink.loopRuns = st.sink.loopRuns := by
  induction es generalizing st with
  | nil => exact ⟨rfl, rfl, rfl⟩
  | cons e es ih =>
    rw [List.foldl_cons]
    obtain ⟨h1, h2, h3⟩ := ih (sweepStep st e)
    obtain ⟨h4, h5, h6⟩ := sweepStep_frame st e
    exact ⟨h1.trans h4, h2.trans h5, h3.trans h6⟩

theorem runLoop_frame (json : Json) (cyc : Cycle) (a : App β) (s : Sink) :
    (runLoop json cyc a s).app.b = a.b ∧
      (runLoop json cyc a s).app.checkInterval = a.checkInterval ∧
      (runLoop json cyc a s).sink.loopRuns = s.loopRuns := by
  cases hl : listDevices json cyc with
  | none =>
    rw [runLoop_of_list_none json cyc a s hl]
    exact ⟨rfl, rfl, rfl⟩
  | some devs =>
    rw [runLoop_of_list_some json cyc a s devs hl]
    obtain ⟨h1, h2, h3⟩ := foldl_sweepStep_frame
      (afterDevices json cyc devs a s).app.knownDevices.entries (afterDevices json cyc devs a s)
    obtain ⟨h4, h5, h6⟩ := foldl_deviceStep_frame json cyc devs ⟨a, s, [], false⟩
    exact ⟨h1.trans h4, h2.trans h5, h3.trans h6⟩

theorem runIteration_loopRuns (bo : BackOff β) (json : Json) (cyc : Cycle) (st : App β × Sink) :
    (runIteration bo json cyc st).2.1 = (runLoop json cyc st.1 st.2).success ∧
      (runIteration bo json cyc st).1.2.loopRuns =
        st.2.loopRuns + if (runLoop json cyc st.1 st.2).success then 1 else 0 := by
  unfold runIteration
  cases h : (runLoop json cyc st.1 st.2).success with
  | false => simp [h, (runLoop_frame json cyc st.1 st.2).2.2]
  | true => simp [h, (runLoop_frame json cyc st.1 st.2).2.2]

theorem identityDiffers_eq_false_iff (prev d : NVMeDevice) :
    identityDiffers prev d = false ↔
      prev.ModelNumber = d.ModelNumber ∧ prev.SerialNumber = d.SerialNumber ∧
        prev.Firmware = d.Firmware := by
  simp [identityDiffers, and_assoc]

theorem PathView.eq_of_fields (v w : PathView) (h1 : v.known = w.known) (h2 : v.data = w.data)
    (h3 : v.info = w.info) (h4 : v.gauge = w.gauge) : v = w := by
  cases v
  cases w
  simp only at h1 h2 h3 h4
  subst h1 h2 h3 h4
  rfl

theorem publishView_congr (d : NVMeDevice) (stats : NVMeStats) (v w : PathView)
    (h2 : v.data = w.data) (h3 : v.info = w.info) :
    publishView d stats v = publishView d stats w := by
  unfold publishView
  rw [h2, h3]

theorem infoOf_congr (d e : NVMeDevice) (h : identityDiffers d e = false) :
    infoOf d = infoOf e := by
  obtain ⟨h1, h2, h3⟩ := (identityDiffers_eq_false_iff d e).1 h
  unfold infoOf
  rw [h1, h2, h3]

theorem publishView_info_of_same (d e : NVMeDevice) (stats : NVMeStats) (u : PathView)
    (hdata : u.data = some d) (hinfo : u.info d.ModelNumber d.SerialNumber d.Firmware = some 1)
    (h : identityDiffers d e = false) : (publishView e stats u).info = u.info := by
  obtain ⟨h1, h2, h3⟩ := (identityDiffers_eq_false_iff d e).1 h
  funext m s f
  simp only [publishView, hdata, Option.getD_some, h, Bool.false_eq_true, if_false]
  split
  · rename_i hm
    obtain ⟨rfl, rfl, rfl⟩ := hm
    rw [← h1, ← h2, ← h3, hinfo]
  · rfl

theorem publishView_info_of_differs (d e : NVMeDevice) (stats : NVMeStats) (u : PathView)
    (hdata : u.data = some d) (h : identityDiffers d e = true) :
    (publishView e stats u).info = infoOf e := by
  funext m s f
  simp only [publishView, hdata, Option.getD_some, h, if_true, infoOf]

theorem identityDiffers_lastFrom (d : NVMeDevice) (l : List NVMeDevice)
    (h : ∀ e ∈ l, identityDiffers d e = false) : identityDiffers d (lastFrom d l) = false := by
  induction l generalizing d with
  | nil => simp [lastFrom, identityDiffers]
  | cons e l ih =>
    have he := h e (List.mem_cons_self _ _)
    obtain ⟨h1, h2, h3⟩ := (identityDiffers_eq_false_iff d e).1 he
    have hl : ∀ x ∈ l, identityDiffers e x = false := by
      intro x hx
      have := (identityDiffers_eq_false_iff d x).1 (h x (List.mem_cons_of_mem _ hx))
      rw [identityDiffers_eq_false_iff, ← h1, ← h2, ← h3]
      exact this
    have := (identityDiffers_eq_false_iff e _).1 (ih e hl)
    show identityDiffers d (lastFrom e l) = false
    rw [identityDiffers_eq_false_iff, h1, h2, h3]
    exact this

theorem foldl_publishView_chain (stats : NVMeStats) (l : List NVMeDevice) (d : NVMeDevice)
    (u : PathView) (hdata : u.data = some d)
    (hinfo : u.info d.ModelNumber d.SerialNumber d.Firmware = some 1) :
    (l.foldl (fun v e => publishView e stats v) u).data = some (lastFrom d l) ∧
      ((∀ e ∈ l, identityDiffers d e = false) →
        (l.foldl (fun v e => publishView e stats v) u).info = u.info) ∧
      (¬ (∀ e ∈ l, identityDiffers d e = false) →
        (l.foldl (fun v e => publishView e stats v) u).info = infoOf (lastFrom d l)) := by
  induction l generalizing d u with
  | nil => exact ⟨hdata, fun _ => rfl, fun h => absurd (fun e he => by cases he) h⟩
  | cons e l ih =>
    rw [List.foldl_cons]
    have hd' : (publishView e stats u).data = some e := rfl
    have hi' : (publishView e stats u).info e.ModelNumber e.SerialNumber e.Firmware = some 1 := by
      simp [publishView]
    obtain ⟨ih1, ih2, ih3⟩ := ih e (publishView e stats u) hd' hi'
    refine ⟨ih1, fun hall => ?_, fun hnot => ?_⟩
    · have he := hall e (List.mem_cons_self _ _)
      obtain ⟨h1, h2, h3⟩ := (identityDiffers_eq_false_iff d e).1 he
      have hl : ∀ x ∈ l, identityDiffers e x = false := by
        intro x hx
        have := (identityDiffers_eq_false_iff d x).1 (hall x (List.mem_cons_of_mem _ hx))
        rw [identityDiffers_eq_false_iff, ← h1, ← h2, ← h3]
        exact this
      rw [ih2 hl]
      exact publishView_info_of_same d e stats u hdata hinfo he
    · show _ = infoOf (lastFrom e l)
      by_cases hl : ∀ x ∈ l, identityDiffers e x = false
      · have he : identityDiffers d e = true := by
          by_contra hne
          have he' : identityDiffers d e = false := by simpa using hne
          obtain ⟨h1, h2, h3⟩ := (identityDiffers_eq_false_iff d e).1 he'
          apply hnot
          intro x hx
          rcases List.mem_cons.1 hx with hx | hx
          · rw [hx]; exact he'
          · have := (identityDiffers_eq_false_iff e x).1 (hl x hx)
            rw [identityDiffers_eq_false_iff, h1, h2, h3]
            exact this
        rw [ih2 hl, publishView_info_of_differs d e stats u hdata he]
        exact infoOf_congr e _ (identityDiffers_lastFrom e l hl)
      · exact ih3 hl

theorem foldl_publishView_idem (stats : NVMeStats) (l : List NVMeDevice) (hl : l ≠ [])
    (v w : PathView) (hw : w = l.foldl (fun v e => publishView e stats v) v)
    (w' : PathView) (hd : w'.data = w.data) (hi : w'.info = w.info) :
    l.foldl (fun v e => publishView e stats v) w' = w := by
  cases l with
  | nil => exact absurd rfl hl
  | cons d l =>
    have hfields := foldl_publishView_of_ne_nil stats (d :: l) hl
    have hw1 := hfields v
    have hw2 := hfields w'
    rw [← hw] at hw1
    refine PathView.eq_of_fields _ _ (hw2.1.trans hw1.1.symm) (hw2.2.1.trans hw1.2.1.symm) ?_
      (hw2.2.2.trans hw1.2.2.symm)
    rw [List.foldl_cons] at hw ⊢
    have hi1 : (publishView d stats v).info d.ModelNumber d.SerialNumber d.Firmware = some 1 := by
      simp [publishView]
    have hi2 : (publishView d stats w').info d.ModelNumber d.SerialNumber d.Firmware = some 1 := by
      simp [publishView]
    obtain ⟨a1, a2, a3⟩ := foldl_publishView_chain stats l d (publishView d stats v) rfl hi1
    obtain ⟨b1, b2, b3⟩ := foldl_publishView_chain stats l d (publishView d stats w') rfl hi2
    rw [← hw] at a1 a2 a3
    by_cases hall : ∀ e ∈ l, identityDiffers d e = false
    · rw [b2 hall, a2 hall]
      have hlast : identityDiffers (lastFrom d l) d = false := by
        have := (identityDiffers_eq_false_iff d _).1 (identityDiffers_lastFrom d l hall)
        rw [identityDiffers_eq_false_iff]
        exact ⟨this.1.symm, this.2.1.symm, this.2.2.symm⟩
      have hwinfo : w.info (lastFrom d l).ModelNumber (lastFrom d l).SerialNumber
          (lastFrom d l).Firmware = some 1 := by
        have := (identityDiffers_eq_false_iff d _).1 (identityDiffers_lastFrom d l hall)
        rw [a2 hall, ← this.1, ← this.2.1, ← this.2.2]
        exact hi1
      have := publishView_info_of_same (lastFrom d l) d stats w' (hd.trans a1)
        (by rw [hi]; exact hwinfo) hlast
      rw [this, hi, a2 hall]
    · rw [b3 hall, a3 hall]
theorem sweepView_idem (v : PathView) (h : v.known ≠ some true) :
    sweepView (sweepView v) = sweepView v := by
  cases v with
  | mk k d i g =>
    cases k with
    | none => rfl
    | some b =>
      cases b with
      | true => exact absurd rfl h
      | false => rfl

theorem cycleView_idem (json : Json) (cyc : Cycle) (devs : List NVMeDevice) (p : String)
    (v : PathView) (hv : v.known ≠ some true) :
    sweepView (loopView json cyc devs p (sweepView (loopView json cyc devs p v))) =
      sweepView (loopView json cyc devs p v) := by
  unfold loopView
  cases fetchStats json cyc p with
  | none => exact sweepView_idem v hv
  | some stats =>
    simp only []
    by_cases hl : devs.filter (fun d => d.DevicePath = p) = []
    · rw [hl]
      exact sweepView_idem v hv
    · have h1 := (foldl_publishView_of_ne_nil stats _ hl v).1
      generalize hw : (devs.filter (fun d => d.DevicePath = p)).foldl
        (fun v d => publishView d stats v) v = w at h1 ⊢
      have hs : sweepView w = { w with known := some false } := by
        unfold sweepView
        rw [h1]
      rw [hs]
      have := foldl_publishView_idem stats _ hl v w hw.symm { w with known := some false } rfl rfl
      rw [this, hs]

theorem runLoop_known_ne_true (json : Json) (cyc : Cycle) (a : App β) (s : Sink)
    (h : ∀ p, a.knownDevices.lookup p ≠ some true) (p : String) :
    (runLoop json cyc a s).app.knownDevices.lookup p ≠ some true := by
  cases hl : listDevices json cyc with
  | none =>
    rw [runLoop_of_list_none json cyc a s hl]
    exact h p
  | some devs =>
    have := congrArg PathView.known (runLoop_view json cyc a s devs hl p)
    rw [sweepView_known] at this
    have h2 : (runLoop json cyc a s).app.knownDevices.lookup p =
        match (loopView json cyc devs p (viewOf a s p)).known with
        | some true => some false
        | _ => none := this
    rw [h2]
    split <;> simp

theorem runIteration_knownDevices (bo : BackOff β) (json : Json) (cyc : Cycle)
    (st : App β × Sink) :
    (runIteration bo json cyc st).1.1.knownDevices =
      (runLoop json cyc st.1 st.2).app.knownDevices := by
  unfold runIteration
  cases h : (runLoop json cyc st.1 st.2).success <;> simp [h]

theorem Reachable.known_ne_true {bo : BackOff β} {json : Json} {st : App β × Sink}
    (h : Reachable bo json st) : ∀ p, st.1.knownDevices.lookup p ≠ some true := by
  induction h with
  | start b ci =>
    intro p
    simp [App.init]
  | next cyc st _ ih =>
    intro p
    rw [runIteration_knownDevices]
    exact runLoop_known_ne_true json cyc st.1 st.2 ih p

theorem log2_eq (r : ℚ) (e : ℤ) (h1 : (2 : ℚ) ^ e ≤ r) (h2 : r < (2 : ℚ) ^ (e + 1)) :
    Int.log 2 r = e := by
  have hr : 0 < r := lt_of_lt_of_le (zpow_pos (by norm_num) e) h1
  have a : e ≤ Int.log 2 r :=
    (Int.zpow_le_iff_le_log (by norm_num) hr).1 (by exact_mod_cast h1)
  have b : Int.log 2 r < e + 1 :=
    (Int.lt_zpow_iff_log_lt (by norm_num) hr).1 (by exact_mod_cast h2)
  omega

theorem roundHalfEven_eq_of_lt (x : ℚ) (z : ℤ) (h : |x - z| < 1 / 2) : roundHalfEven x = z := by
  have h1 := abs_lt.1 h
  have hf1 : (⌊x⌋ : ℚ) ≤ x := Int.floor_le x
  have hf2 : x < ⌊x⌋ + 1 := Int.lt_floor_add_one x
  unfold roundHalfEven
  simp only []
  split
  · rename_i hlt
    have a : ((⌊x⌋ : ℤ) : ℚ) < (z : ℚ) + 1 := by linarith [h1.2]
    have b : ((z : ℤ) : ℚ) < (⌊x⌋ : ℚ) + 1 := by linarith [h1.1]
    have a' : ⌊x⌋ < z + 1 := by exact_mod_cast a
    have b' : z < ⌊x⌋ + 1 := by exact_mod_cast b
    omega
  · rename_i hge
    split
    · rename_i hgt
      have a : ((⌊x⌋ : ℤ) : ℚ) < (z : ℚ) := by linarith [h1.2]
      have b : ((z : ℤ) : ℚ) < (⌊x⌋ : ℚ) + 2 := by linarith [h1.1]
      have a' : ⌊x⌋ < z := by exact_mod_cast a
      have b' : z < ⌊x⌋ + 2 := by exact_mod_cast b
      omega
    · rename_i hle
      have heq : x - ⌊x⌋ = 1 / 2 := le_antisymm (not_lt.1 hle) (not_lt.1 hge)
      have a : ((⌊x⌋ : ℤ) : ℚ) < (z : ℚ) := by linarith [h1.2]
      have b : ((z : ℤ) : ℚ) < (⌊x⌋ : ℚ) + 1 := by linarith [h1.1]
      have a' : ⌊x⌋ < z := by exact_mod_cast a
      have b' : z < ⌊x⌋ + 1 := by exact_mod_cast b
      omega

theorem roundHalfEven_sub_le (x : ℚ) : |(roundHalfEven x : ℚ) - x| ≤ 1 / 2 := by
  have hf1 : (⌊x⌋ : ℚ) ≤ x := Int.floor_le x
  have hf2 : x < ⌊x⌋ + 1 := Int.lt_floor_add_one x
  unfold roundHalfEven
  simp only []
  rw [abs_le]
  split
  · constructor <;> linarith
  · rename_i hge
    have hge' := not_lt.1 hge
    split
    · push_cast
      constructor <;> linarith
    · rename_i hle
      have heq : x - ⌊x⌋ = 1 / 2 := le_antisymm (not_lt.1 hle) hge'
      split
      · constructor <;> linarith
      · push_cast
        constructor <;> linarith

theorem roundHalfEven_tie_even (z : ℤ) (hz : z % 2 = 0) :
    roundHalfEven ((z : ℚ) + 1 / 2) = z := by
  have hfl : ⌊(z : ℚ) + 1 / 2⌋ = z := by
    rw [Int.floor_eq_iff]
    constructor <;> linarith
  unfold roundHalfEven
  simp only [hfl]
  have : (z : ℚ) + 1 / 2 - z = 1 / 2 := by ring
  rw [this]
  simp [hz]

theorem f64_of_log (q : ℚ) (e : ℤ) (h1 : (2 : ℚ) ^ e ≤ |q|) (h2 : |q| < (2 : ℚ) ^ (e + 1))
    (he : -1022 ≤ e) :
    f64 q = (roundHalfEven (q / (2 : ℚ) ^ (e - 52)) : ℚ) * (2 : ℚ) ^ (e - 52) := by
  have hq : q ≠ 0 := by
    intro h
    rw [h, abs_zero] at h1
    exact absurd h1 (not_le.2 (zpow_pos (by norm_num) e))
  unfold f64
  rw [if_neg hq, log2_eq |q| e h1 h2, max_eq_left he]

theorem mathRound_of_near (x : ℚ) (n : ℤ) (h : |x - n| < 1 / 2) : mathRound x = n := by
  have h1 := abs_lt.1 h
  unfold mathRound
  split
  · have : ⌊x + 1 / 2⌋ = n := by
      rw [Int.floor_eq_iff]
      constructor <;> linarith
    rw [this]
  · have : ⌊-x + 1 / 2⌋ = -n := by
      rw [Int.floor_eq_iff]
      push_cast
      constructor <;> linarith
    rw [this]
    push_cast
    ring

theorem floatToInt_intCast (n : ℤ) (h1 : -(2 : ℤ) ^ 63 ≤ n) (h2 : n < (2 : ℤ) ^ 63) :
    floatToInt (n : ℚ) = n := by
  have a : -(2 : ℚ) ^ 63 ≤ (n : ℚ) := by exact_mod_cast h1
  have b : (n : ℚ) < (2 : ℚ) ^ 63 := by exact_mod_cast h2
  unfold floatToInt
  rw [if_pos ⟨a, b⟩]
  split
  · exact Int.floor_intCast n
  · exact Int.ceil_intCast n

theorem f64_27315 : f64 (27315 / 100) = 2402652809016115 / 8796093022208 := by
  rw [f64_of_log (27315 / 100) 8 (by rw [abs_of_pos] <;> norm_num)
    (by rw [abs_of_pos] <;> norm_num) (by norm_num)]
  have hp : (2 : ℚ) ^ ((8 : ℤ) - 52) = 1 / 17592186044416 := by
    rw [show ((8 : ℤ) - 52) = -(44 : ℕ) by norm_num, zpow_neg, zpow_natCast]
    norm_num
  rw [hp, roundHalfEven_eq_of_lt _ 4805305618032230 (by rw [abs_lt]; constructor <;> norm_num)]
  norm_num
theorem f64_intCast (n : ℤ) (h : |n| < 2 ^ 53) : f64 (n : ℚ) = n := by
  by_cases hn : n = 0
  · subst hn
    simp [f64]
  have hpos : (0 : ℚ) < |(n : ℚ)| := abs_pos.2 (by exact_mod_cast hn)
  have hone : (1 : ℚ) ≤ |(n : ℚ)| := by
    have : (1 : ℤ) ≤ |n| := Int.one_le_abs hn
    exact_mod_cast this
  have hlt : |(n : ℚ)| < (2 : ℚ) ^ (53 : ℤ) := by
    have : ((|n| : ℤ) : ℚ) < ((2 ^ 53 : ℤ) : ℚ) := by exact_mod_cast h
    rw [Int.cast_abs] at this
    norm_num at this ⊢
    exact this
  have h1 : (2 : ℚ) ^ Int.log 2 |(n : ℚ)| ≤ |(n : ℚ)| := by
    have := Int.zpow_log_le_self (b := 2) (r := |(n : ℚ)|) (by norm_num) hpos
    exact_mod_cast this
  have h2 : |(n : ℚ)| < (2 : ℚ) ^ (Int.log 2 |(n : ℚ)| + 1) := by
    have := Int.lt_zpow_succ_log_self (b := 2) (by norm_num) |(n : ℚ)|
    exact_mod_cast this
  have he0 : 0 ≤ Int.log 2 |(n : ℚ)| :=
    (Int.zpow_le_iff_le_log (b := 2) (by norm_num) hpos).1 (by simpa using hone)
  have he1 : Int.log 2 |(n : ℚ)| < 53 :=
    (Int.lt_zpow_iff_log_lt (b := 2) (by norm_num) hpos).1 (by exact_mod_cast hlt)
  rw [f64_of_log (n : ℚ) _ h1 h2 (by omega)]
  generalize Int.log 2 |(n : ℚ)| = e at he0 he1
  obtain ⟨j, hj⟩ : ∃ j : ℕ, e - 52 = -(j : ℤ) := ⟨(52 - e).toNat, by omega⟩
  rw [hj, zpow_neg, zpow_natCast]
  have hz : (n : ℚ) / ((2 : ℚ) ^ j)⁻¹ = ((n * 2 ^ j : ℤ) : ℚ) := by
    push_cast
    field_simp
  rw [hz, roundHalfEven_eq_of_lt _ (n * 2 ^ j) (by simp)]
  push_cast
  field_simp

theorem f64_two_pow_53 : f64 ((2 : ℚ) ^ 53) = (2 : ℚ) ^ 53 := by
  rw [f64_of_log ((2 : ℚ) ^ 53) 53 (by rw [abs_of_pos] <;> norm_num)
    (by rw [abs_of_pos] <;> norm_num) (by norm_num)]
  have hp : (2 : ℚ) ^ ((53 : ℤ) - 52) = 2 := by norm_num
  rw [hp, roundHalfEven_eq_of_lt _ (2 ^ 52) (by norm_num)]
  norm_num

theorem kelvinToCelsius_of_near (q : ℚ) (n : ℤ) (hn1 : -(2 : ℤ) ^ 63 ≤ n) (hn2 : n < (2 : ℤ) ^ 63)
    (hlo : (1 : ℚ) / 8 ≤ |q|) (hhi : |q| < (2 : ℚ) ^ (53 : ℤ))
    (hnear : |q - n| < 151 / 1000) :
    floatToInt (mathRound (f64 q)) = n := by
  have hpos : (0 : ℚ) < |q| := lt_of_lt_of_le (by norm_num) hlo
  have h1 : (2 : ℚ) ^ Int.log 2 |q| ≤ |q| := by
    have := Int.zpow_log_le_self (b := 2) (r := |q|) (by norm_num) hpos
    exact_mod_cast this
  have h2 : |q| < (2 : ℚ) ^ (Int.log 2 |q| + 1) := by
    have := Int.lt_zpow_succ_log_self (b := 2) (by norm_num) |q|
    exact_mod_cast this
  have he0 : -3 ≤ Int.log 2 |q| :=
    (Int.zpow_le_iff_le_log (b := 2) (by norm_num) hpos).1 (by norm_num; linarith)
  have he1 : Int.log 2 |q| < 53 :=
    (Int.lt_zpow_iff_log_lt (b := 2) (by norm_num) hpos).1 (by exact_mod_cast hhi)
  have hf := f64_of_log q _ h1 h2 (by omega)
  generalize Int.log 2 |q| = e at he0 he1 hf
  have hulp : (0 : ℚ) < (2 : ℚ) ^ (e - 52) := zpow_pos (by norm_num) _
  have hr := roundHalfEven_sub_le (q / (2 : ℚ) ^ (e - 52))
  have herr : |f64 q - q| ≤ (2 : ℚ) ^ (e - 52) / 2 := by
    have hq : q = q / (2 : ℚ) ^ (e - 52) * (2 : ℚ) ^ (e - 52) := by field_simp
    rw [hf]
    nth_rewrite 2 [hq]
    rw [← sub_mul, abs_mul, abs_of_pos hulp]
    calc |(roundHalfEven (q / (2 : ℚ) ^ (e - 52)) : ℚ) - q / (2 : ℚ) ^ (e - 52)|
          * (2 : ℚ) ^ (e - 52)
        ≤ 1 / 2 * (2 : ℚ) ^ (e - 52) := mul_le_mul_of_nonneg_right hr hulp.le
      _ = (2 : ℚ) ^ (e - 52) / 2 := by ring
  have hclose : |f64 q - n| < 1 / 2 := by
    by_cases he : e ≤ 51
    · have hu : (2 : ℚ) ^ (e - 52) ≤ (2 : ℚ) ^ (-1 : ℤ) :=
        zpow_le_zpow_right₀ (by norm_num) (by omega)
      have hu' : (2 : ℚ) ^ (e - 52) ≤ 1 / 2 := by
        norm_num at hu ⊢
        exact hu
      have habs : |f64 q - n| ≤ |f64 q - q| + |q - n| := by
        have := abs_add (f64 q - q) (q - n)
        simpa using this
      linarith
    · have he52 : e = 52 := by omega
      subst he52
      have hp : (2 : ℚ) ^ ((52 : ℤ) - 52) = 1 := by norm_num
      rw [hp] at hf hr
      simp only [div_one, mul_one] at hf hr
      have hz : roundHalfEven q = n := by
        have a := abs_le.1 hr
        have b := abs_lt.1 hnear
        have c1 : ((roundHalfEven q : ℤ) : ℚ) < (n : ℚ) + 1 := by linarith
        have c2 : ((n : ℤ) : ℚ) < (roundHalfEven q : ℚ) + 1 := by linarith
        have c1' : roundHalfEven q < n + 1 := by exact_mod_cast c1
        have c2' : n < roundHalfEven q + 1 := by exact_mod_cast c2
        omega
      rw [hf, hz]
      simp
  rw [mathRound_of_near _ n hclose]
  exact floatToInt_intCast n hn1 hn2

theorem publishView_info_of_consistent (d : NVMeDevice) (stats : NVMeStats) (v : PathView)
    (hv : v.Consistent) : (publishView d stats v).info = infoOf d := by
  by_cases hdiff : identityDiffers (v.data.getD NVMeDevice.zero) d = true
  · funext m s f
    simp only [publishView, hdiff, if_true, infoOf]
  · have hsame : identityDiffers (v.data.getD NVMeDevice.zero) d = false := by
      simpa using hdiff
    funext m s f
    simp only [publishView, hsame, Bool.false_eq_true, if_false, infoOf]
    split
    · rfl
    · rcases hv with ⟨-, dev, hdata, hinfo, -⟩ | ⟨-, hinfo, -⟩
      · rw [hdata, Option.getD_some] at hsame
        rw [hinfo, infoOf_congr dev d hsame]
        simp only [infoOf]
        rename_i hne
        rw [if_neg hne]
      · rw [hinfo]

theorem loopView_of_processed (json : Json) (cyc : Cycle) (devs : List NVMeDevice) (p : String)
    (d : NVMeDevice) (hd : d ∈ devs) (hp : d.DevicePath = p) (stats : NVMeStats)
    (hf : fetchStats json cyc p = some stats) (v : PathView) (hv : v.Consistent) :
    (loopView json cyc devs p v).known = some true ∧
      ∃ dev, (loopView json cyc devs p v).data = some dev ∧
        (loopView json cyc devs p v).info = infoOf dev ∧
        ∀ g, (loopView json cyc devs p v).gauge g ≠ none := by
  unfold loopView
  rw [hf]
  simp only []
  have hne : devs.filter (fun e => e.DevicePath = p) ≠ [] := by
    intro h
    rw [List.filter_eq_nil_iff] at h
    exact h d hd (by simpa using hp)
  generalize devs.filter (fun e => e.DevicePath = p) = L at hne ⊢
  obtain ⟨h1, -, h3⟩ := foldl_publishView_of_ne_nil stats L hne v
  refine ⟨h1, ?_⟩
  cases L with
  | nil => exact absurd rfl hne
  | cons d1 l =>
    rw [List.foldl_cons] at h3 ⊢
    have hi1 : (publishView d1 stats v).info = infoOf d1 :=
      publishView_info_of_consistent d1 stats v hv
    have hi1' : (publishView d1 stats v).info d1.ModelNumber d1.SerialNumber d1.Firmware =
        some 1 := by
      simp [publishView]
    obtain ⟨c1, c2, c3⟩ := foldl_publishView_chain stats l d1 (publishView d1 stats v) rfl hi1'
    refine ⟨lastFrom d1 l, c1, ?_, fun g => ?_⟩
    · by_cases hall : ∀ e ∈ l, identityDiffers d1 e = false
      · rw [c2 hall, hi1]
        exact infoOf_congr d1 _ (identityDiffers_lastFrom d1 l hall)
      · exact c3 hall
    · rw [h3]
      simp

theorem cycleView_consistent (json : Json) (cyc : Cycle) (devs : List NVMeDevice) (p : String)
    (v : PathView) (hv : v.Consistent) :
    (sweepView (loopView json cyc devs p v)).Consistent ∧
      ((sweepView (loopView json cyc devs p v)).known = some false ↔
        ∃ d ∈ devs, d.DevicePath = p ∧ (fetchStats json cyc p).isSome = true) := by
  by_cases hproc : ∃ d ∈ devs, d.DevicePath = p ∧ (fetchStats json cyc p).isSome = true
  · obtain ⟨d, hd, hp, hsome⟩ := hproc
    obtain ⟨stats, hf⟩ := Option.isSome_iff_exists.1 hsome
    obtain ⟨h1, dev, h2, h3, h4⟩ := loopView_of_processed json cyc devs p d hd hp stats hf v hv
    have hs : sweepView (loopView json cyc devs p v) =
        { loopView json cyc devs p v with known := some false } := by
      unfold sweepView
      rw [h1]
    rw [hs]
    exact ⟨Or.inl ⟨rfl, dev, h2, h3, h4⟩, fun _ => ⟨d, hd, hp, hsome⟩, fun _ => rfl⟩
  · have hsame : loopView json cyc devs p v = v := by
      cases hf : fetchStats json cyc p with
      | none => exact loopView_of_failed json cyc devs p hf v
      | some stats =>
        apply loopView_of_not_listed
        intro d hd hp
        exact hproc ⟨d, hd, hp, by rw [hf]; rfl⟩
    rw [hsame]
    have hnone : (sweepView v).known = none ∧ (sweepView v).info = (fun _ _ _ => none) ∧
        (sweepView v).gauge = fun _ => none := by
      rcases hv with ⟨hk, -⟩ | ⟨hk, hi, hg⟩
      · unfold sweepView
        rw [hk]
        exact ⟨rfl, rfl, rfl⟩
      · have : sweepView v = v := by
          unfold sweepView
          rw [hk]
        rw [this]
        exact ⟨hk, hi, hg⟩
    refine ⟨Or.inr hnone, fun h => ?_, fun h => absurd h hproc⟩
    rw [hnone.1] at h
    cases h

theorem runIteration_viewOf (bo : BackOff β) (json : Json) (cyc : Cycle) (st : App β × Sink)
    (p : String) :
    viewOf (runIteration bo json cyc st).1.1 (runIteration bo json cyc st).1.2 p =
      viewOf (runLoop json cyc st.1 st.2).app (runLoop json cyc st.1 st.2).sink p := by
  unfold runIteration
  cases h : (runLoop json cyc st.1 st.2).success <;> simp [h, viewOf]

theorem runLoop_consistent (json : Json) (cyc : Cycle) (a : App β) (s : Sink)
    (h : ∀ p, (viewOf a s p).Consistent) (p : String) :
    (viewOf (runLoop json cyc a s).app (runLoop json cyc a s).sink p).Consistent := by
  cases hl : listDevices json cyc with
  | none =>
    rw [runLoop_of_list_none json cyc a s hl]
    exact h p
  | some devs =>
    rw [runLoop_view json cyc a s devs hl p]
    exact (cycleView_consistent json cyc devs p _ (h p)).1

theorem Reachable.consistent {bo : BackOff β} {json : Json} {st : App β × Sink}
    (h : Reachable bo json st) : ∀ p, (viewOf st.1 st.2 p).Consistent := by
  induction h with
  | start b ci =>
    intro p
    exact Or.inr ⟨by simp [viewOf, App.init], rfl, rfl⟩
  | next cyc st _ ih =>
    intro p
    rw [runIteration_viewOf]
    exact runLoop_consistent json cyc st.1 st.2 ih p

/-! ## The claims -/

/-- **C1** (disappearance). Let a device of path `p` be listed in cycle N with its telemetry
fetched and parsed, and let the list of cycle N+1 be fetched and not contain `p`. Then `p` is a
key of `knownDevices` after cycle N; in cycle N+1 `runLoop` calls `DeletePartialMatch` on the
info vector and `DeleteLabelValues` on each of the 26 gauge vectors for `p`; afterwards the
registry has no info series and no gauge series labelled `p`, and `p` is not a key of
`knownDevices`. -/
theorem runLoop_disappearance (json : Json) (cycN cycN1 : Cycle) (a : App β) (s : Sink)
    (devsN devsN1 : List NVMeDevice) (d : NVMeDevice) (r1 r2 : LoopResult β)
    (hlistN : listDevices json cycN = some devsN) (hd : d ∈ devsN)
    (hstats : (fetchStats json cycN d.DevicePath).isSome = true)
    (hlistN1 : listDevices json cycN1 = some devsN1)
    (habsent : ∀ e ∈ devsN1, e.DevicePath ≠ d.DevicePath)
    (hr1 : r1 = runLoop json cycN a s) (hr2 : r2 = runLoop json cycN1 r1.app r1.sink) :
    r1.app.knownDevices.lookup d.DevicePath = some false ∧
      SinkOp.deleteInfo d.DevicePath ∈ r2.calls ∧
      (∀ g, SinkOp.deleteGauge g d.DevicePath ∈ r2.calls) ∧
      (∀ m sn fw, r2.sink.nvmeInfo d.DevicePath m sn fw = none) ∧
      (∀ g, r2.sink.gauge g d.DevicePath = none) ∧
      r2.app.knownDevices.lookup d.DevicePath = none := by
  obtain ⟨stats, hstats⟩ := Option.isSome_iff_exists.1 hstats
  have h1 := runLoop_view json cycN a s devsN hlistN d.DevicePath
  rw [← hr1] at h1
  have hk1 : (viewOf r1.app r1.sink d.DevicePath).known = some false := by
    rw [h1]
    unfold sweepView
    rw [loopView_known_of_listed json cycN devsN d hd stats hstats]
  have h2 := runLoop_view json cycN1 r1.app r1.sink devsN1 hlistN1 d.DevicePath
  rw [← hr2, loopView_of_not_listed json cycN1 devsN1 d.DevicePath habsent] at h2
  have h3 : viewOf r2.app r2.sink d.DevicePath =
      ⟨none, r1.app.deviceData d.DevicePath, fun _ _ _ => none, fun _ => none⟩ := by
    rw [h2]
    unfold sweepView
    rw [hk1]
    rfl
  obtain ⟨pub, evict, hc, -, -, hev⟩ := runLoop_calls json cycN1 r1.app r1.sink devsN1 hlistN1
  rw [← hr2] at hc
  have hmem : ∀ op ∈ evictCalls d.DevicePath, op ∈ r2.calls := by
    intro op hop
    rw [hc]
    refine List.mem_append_right _ ((hev op).2 ⟨d.DevicePath, ?_, hop⟩)
    rw [loopView_of_not_listed json cycN1 devsN1 d.DevicePath habsent]
    exact hk1
  refine ⟨hk1, hmem _ (deleteInfo_mem_evictCalls _),
    fun g => hmem _ (deleteGauge_mem_evictCalls _ g), fun m sn fw => ?_, fun g => ?_, ?_⟩
  · exact congrFun (congrFun (congrFun (congrArg PathView.info h3) m) sn) fw
  · exact congrFun (congrArg PathView.gauge h3) g
  · exact congrArg PathView.known h3

/-- Instance of C1: drive 1 is published in a first cycle and missing from the list of the
next one. -/
theorem runLoop_disappearance_witness :
    (runLoop sampleJson cycleWithoutSecond
        (runLoop sampleJson cycleAll (App.init 1 60) Sink.empty).app
        (runLoop sampleJson cycleAll (App.init 1 60)
          Sink.empty).sink).app.knownDevices.lookup "/dev/nvme1n1" = none :=
  (runLoop_disappearance sampleJson cycleAll cycleWithoutSecond (App.init 1 60) Sink.empty
    [sampleDevice 0, sampleDevice 1, sampleDevice 2] [sampleDevice 0, sampleDevice 2]
    (sampleDevice 1) _ _ rfl (by decide) rfl rfl (by decide) rfl rfl).2.2.2.2.2

/-- **C8** (atomicity on list failure). If the device-list command fails, or its output cannot
be decoded, `runLoop` returns `false`, the receiver (with `knownDevices` and `deviceData`) and
the registry are exactly what they were, and no call is made on any metric vector. -/
theorem runLoop_list_failure_untouched (json : Json) (cyc : Cycle) (a : App β) (s : Sink)
    (h : cyc.nvmeList = none ∨
      ∃ out, cyc.nvmeList = some out ∧ json.unmarshalDevices out = none) :
    (runLoop json cyc a s).success = false ∧ (runLoop json cyc a s).app = a ∧
      (runLoop json cyc a s).sink = s ∧ (runLoop json cyc a s).calls = [] := by
  have hl : listDevices json cyc = none := by
    unfold listDevices
    rcases h with h | ⟨out, h1, h2⟩
    · rw [h]
    · rw [h1]; simp only [h2]
  rw [runLoop_of_list_none json cyc a s hl]
  exact ⟨rfl, rfl, rfl, rfl⟩

/-- Instance of C8: the device-list command fails. -/
theorem runLoop_list_failure_untouched_witness :
    (runLoop sampleJson cycleListFails (App.init 1 60) Sink.empty).calls = [] :=
  (runLoop_list_failure_untouched sampleJson cycleListFails (App.init 1 60) Sink.empty
    (Or.inl rfl)).2.2.2

/-- **C7** (cycle result). `runLoop` returns `true` exactly when the device-list command and
the decoding of its output succeed and, for every device of the list, the smart-log command and
`parseNVMeStats` succeed. -/
theorem runLoop_success_iff (json : Json) (cyc : Cycle) (a : App β) (s : Sink) :
    (runLoop json cyc a s).success = true ↔
      ∃ out devices, cyc.nvmeList = some out ∧ json.unmarshalDevices out = some devices ∧
        ∀ d ∈ devices.Devices, ∃ jsonOutput stats, cyc.smartLog d.DevicePath = some jsonOutput ∧
          parseNVMeStats json.unmarshalStats jsonOutput = some stats := by
  cases hl : listDevices json cyc with
  | none =>
    rw [runLoop_of_list_none json cyc a s hl]
    constructor
    · intro h; cases h
    · rintro ⟨out, devices, h1, h2, -⟩
      have := (listDevices_eq_some_iff json cyc devices.Devices).2 ⟨out, devices, h1, h2, rfl⟩
      rw [hl] at this
      cases this
  | some devs =>
    rw [runLoop_success_of_list_some json cyc a s devs hl]
    obtain ⟨out, devices, h1, h2, h3⟩ := (listDevices_eq_some_iff json cyc devs).1 hl
    subst h3
    simp only [Bool.not_eq_true', List.any_eq_false, Option.isNone_iff_eq_none]
    constructor
    · intro h
      refine ⟨out, devices, h1, h2, fun d hd => ?_⟩
      cases hf : fetchStats json cyc d.DevicePath with
      | none => exact absurd hf (by simpa using h d hd)
      | some stats =>
        obtain ⟨jo, h4, h5⟩ := (fetchStats_eq_some_iff json cyc _ stats).1 hf
        exact ⟨jo, stats, h4, h5⟩
    · rintro ⟨out', devices', h1', h2', h3'⟩
      rw [h1] at h1'
      cases h1'
      rw [h2] at h2'
      cases h2'
      intro d hd
      obtain ⟨jo, stats, h4, h5⟩ := h3' d hd
      have := (fetchStats_eq_some_iff json cyc _ stats).2 ⟨jo, h4, h5⟩
      simp [this]

/-- **C2** (identity churn). Let the path `p` be listed once in cycle N, as device `dA`, and
once in cycle N+1, as device `dB`, with telemetry fetched and parsed in both cycles, and let
`dB` differ from `dA` in model, serial number or firmware. Then the calls of cycle N+1 on the
registry are `pre`, then `DeletePartialMatch` on the info vector for `p`, then the `Set` of the
info series of `dB`, then `post`, where no call of `pre` addresses `p` and the only calls of
`post` that address `p` set a gauge to the value of cycle N+1. Afterwards the registry holds for
`p` the info series of `dB` and no other, no gauge of `p` has been deleted, and each gauge of
`p` holds its new value. -/
theorem runLoop_identity_churn (json : Json) (cycN cycN1 : Cycle) (a : App β) (s : Sink)
    (devsN devsN1 : List NVMeDevice) (p : String) (dA dB : NVMeDevice) (statsB : NVMeStats)
    (r1 r2 : LoopResult β)
    (hlistN : listDevices json cycN = some devsN)
    (honlyA : devsN.filter (fun e => e.DevicePath = p) = [dA])
    (hstatsA : (fetchStats json cycN p).isSome = true)
    (hlistN1 : listDevices json cycN1 = some devsN1)
    (honlyB : devsN1.filter (fun e => e.DevicePath = p) = [dB])
    (hstatsB : fetchStats json cycN1 p = some statsB)
    (hdiff : dA.ModelNumber ≠ dB.ModelNumber ∨ dA.SerialNumber ≠ dB.SerialNumber ∨
      dA.Firmware ≠ dB.Firmware)
    (hr1 : r1 = runLoop json cycN a s) (hr2 : r2 = runLoop json cycN1 r1.app r1.sink) :
    (∃ pre post,
        r2.calls = pre ++ SinkOp.deleteInfo p ::
          SinkOp.setInfo p dB.ModelNumber dB.SerialNumber dB.Firmware :: post ∧
        (∀ op ∈ pre, op.device ≠ p) ∧
        (∀ op ∈ post, op.device = p → ∃ g, op = SinkOp.setGauge g p (gaugeValue dB statsB g))) ∧
      (∀ m sn fw, r2.sink.nvmeInfo p m sn fw =
        if m = dB.ModelNumber ∧ sn = dB.SerialNumber ∧ fw = dB.Firmware then some 1 else none) ∧
      (∀ g, SinkOp.deleteGauge g p ∉ r2.calls) ∧
      (∀ g, r2.sink.gauge g p = some (gaugeValue dB statsB g)) := by
  obtain ⟨statsA, hstatsA⟩ := Option.isSome_iff_exists.1 hstatsA
  have hpB : dB.DevicePath = p := by
    have : dB ∈ devsN1.filter (fun e => e.DevicePath = p) := by rw [honlyB]; exact List.mem_singleton.2 rfl
    simpa using (List.mem_filter.1 this).2
  -- after cycle N the stored identity of `p` is that of `dA`
  have h1 := runLoop_view json cycN a s devsN hlistN p
  rw [← hr1, loopView_of_listed_once json cycN devsN p dA statsA honlyA hstatsA] at h1
  have hdata1 : r1.app.deviceData p = some dA := by
    have := congrArg PathView.data h1
    rw [sweepView_data] at this
    exact this
  have hdiffers : identityDiffers ((r1.app.deviceData p).getD NVMeDevice.zero) dB = true := by
    rw [hdata1]
    exact (identityDiffers_eq_true_iff dA dB).2 hdiff
  -- the view of `p` after cycle N+1
  have h2 := runLoop_view json cycN1 r1.app r1.sink devsN1 hlistN1 p
  rw [← hr2, loopView_of_listed_once json cycN1 devsN1 p dB statsB honlyB hstatsB] at h2
  have hview : viewOf r2.app r2.sink p =
      ⟨some false, some dB,
        fun m sn fw =>
          if m = dB.ModelNumber ∧ sn = dB.SerialNumber ∧ fw = dB.Firmware then some 1 else none,
        fun g => some (gaugeValue dB statsB g)⟩ := by
    rw [h2]
    simp only [sweepView, publishView, viewOf, hdiffers, if_true]
  -- the calls of cycle N+1
  obtain ⟨l1, l2, hsplit, hl1, -, hl2⟩ := List.filter_eq_cons_iff.1 honlyB
  rw [List.filter_eq_nil_iff] at hl2
  have hl1' : ∀ e ∈ l1, e.DevicePath ≠ dB.DevicePath := by
    intro e he
    rw [hpB]
    simpa using hl1 e he
  have hl2' : ∀ e ∈ l2, e.DevicePath ≠ dB.DevicePath := by
    intro e he
    rw [hpB]
    simpa using hl2 e he
  obtain ⟨pub, evict, hc, hpub, -, hev⟩ := runLoop_calls json cycN1 r1.app r1.sink devsN1 hlistN1
  rw [← hr2] at hc
  obtain ⟨pre, post, hcalls, hpre, hpost⟩ := foldl_deviceStep_calls_split json cycN1 l1 l2 dB
    statsB ⟨r1.app, r1.sink, [], false⟩ hl1' hl2' (hpB ▸ hstatsB)
  have hpub2 : pub = pre ++ SinkOp.deleteInfo p ::
      SinkOp.setInfo p dB.ModelNumber dB.SerialNumber dB.Firmware ::
      (Gauge.all.map (fun g => SinkOp.setGauge g p (gaugeValue dB statsB g)) ++ post) := by
    rw [hpub]
    unfold afterDevices
    rw [hsplit, hcalls]
    simp only [hpB, hdiffers, publishCalls, if_true, List.nil_append, List.append_assoc,
      List.cons_append, List.singleton_append]
  have hkn : (loopView json cycN1 devsN1 p (viewOf r1.app r1.sink p)).known = some true := by
    rw [loopView_of_listed_once json cycN1 devsN1 p dB statsB honlyB hstatsB]
    rfl
  have hevict : ∀ op ∈ evict, op.device ≠ p := by
    intro op hop hp
    obtain ⟨q, hq, hmem⟩ := (hev op).1 hop
    have hq2 := (evictCalls_device q op hmem).1
    rw [hp] at hq2
    subst hq2
    rw [hkn] at hq
    cases hq
  have hdecomp : r2.calls = pre ++ SinkOp.deleteInfo p ::
      SinkOp.setInfo p dB.ModelNumber dB.SerialNumber dB.Firmware ::
      ((Gauge.all.map (fun g => SinkOp.setGauge g p (gaugeValue dB statsB g)) ++ post) ++
        evict) := by
    rw [hc, hpub2]
    simp only [List.append_assoc, List.cons_append]
  have hpre' : ∀ op ∈ pre, op.device ≠ p := fun op hop => hpB ▸ hpre op hop
  have hpost' : ∀ op ∈
      (Gauge.all.map (fun g => SinkOp.setGauge g p (gaugeValue dB statsB g)) ++ post) ++ evict,
      op.device = p → ∃ g, op = SinkOp.setGauge g p (gaugeValue dB statsB g) := by
    intro op hop hp
    rcases List.mem_append.1 hop with hop | hop
    · rcases List.mem_append.1 hop with hop | hop
      · obtain ⟨g, -, rfl⟩ := List.mem_map.1 hop
        exact ⟨g, rfl⟩
      · exact absurd (hpB ▸ hp) (hpost op hop)
    · exact absurd hp (hevict op hop)
  refine ⟨⟨pre, _, hdecomp, hpre', hpost'⟩, fun m sn fw => ?_, fun g hg => ?_, fun g => ?_⟩
  · exact congrFun (congrFun (congrFun (congrArg PathView.info hview) m) sn) fw
  · rw [hdecomp] at hg
    rcases List.mem_append.1 hg with hg | hg
    · exact hpre' _ hg rfl
    · rcases List.mem_cons.1 hg with hg | hg
      · cases hg
      · rcases List.mem_cons.1 hg with hg | hg
        · cases hg
        · obtain ⟨g', hg'⟩ := hpost' _ hg rfl
          cases hg'
  · exact congrFun (congrArg PathView.gauge hview) g

/-- Instance of C2: drive 0 is replaced between two cycles by a drive of the same path and
another serial number; afterwards the info series of the new drive exists and the one of the
old drive does not. -/
theorem runLoop_identity_churn_witness :
    (runLoop sampleJson cycleReplaced
        (runLoop sampleJson cycleAll (App.init 1 60) Sink.empty).app
        (runLoop sampleJson cycleAll (App.init 1 60) Sink.empty).sink).sink.nvmeInfo
          "/dev/nvme0n1" "M" "S9" "FW1" = some 1 ∧
      (runLoop sampleJson cycleReplaced
        (runLoop sampleJson cycleAll (App.init 1 60) Sink.empty).app
        (runLoop sampleJson cycleAll (App.init 1 60) Sink.empty).sink).sink.nvmeInfo
          "/dev/nvme0n1" "M" "S0" "FW1" = none := by
  have h := (runLoop_identity_churn sampleJson cycleAll cycleReplaced (App.init 1 60) Sink.empty
    [sampleDevice 0, sampleDevice 1, sampleDevice 2]
    [sampleDevice 3, sampleDevice 1, sampleDevice 2] "/dev/nvme0n1"
    (sampleDevice 0) (sampleDevice 3) sampleStats _ _ rfl (by decide) rfl rfl (by decide) rfl
    (by decide) rfl rfl).2.1
  exact ⟨(h "M" "S9" "FW1").trans (by decide), (h "M" "S0" "FW1").trans (by decide)⟩

/-- **C3**, as stated, fails: drives 0, 1 and 2 are published by a first cycle; in the next
cycle the smart-log command fails for drive 1, and `runLoop` deletes the info series and the
gauge series of drive 1, which existed before the call. -/
theorem runLoop_partial_failure_counterexample :
    listDevices sampleJson cycleSecondFails =
        some [sampleDevice 0, sampleDevice 1, sampleDevice 2] ∧
      cycleSecondFails.smartLog (sampleDevice 1).DevicePath = none ∧
      SinkOp.deleteInfo (sampleDevice 1).DevicePath ∈
        (runLoop sampleJson cycleSecondFails
          (runLoop sampleJson cycleAll (App.init 1 60) Sink.empty).app
          (runLoop sampleJson cycleAll (App.init 1 60) Sink.empty).sink).calls ∧
      SinkOp.deleteGauge Gauge.nvmeTemperature (sampleDevice 1).DevicePath ∈
        (runLoop sampleJson cycleSecondFails
          (runLoop sampleJson cycleAll (App.init 1 60) Sink.empty).app
          (runLoop sampleJson cycleAll (App.init 1 60) Sink.empty).sink).calls ∧
      ((runLoop sampleJson cycleAll (App.init 1 60) Sink.empty).sink.gauge
        Gauge.nvmeTemperature (sampleDevice 1).DevicePath).isSome = true ∧
      ((runLoop sampleJson cycleSecondFails
          (runLoop sampleJson cycleAll (App.init 1 60) Sink.empty).app
          (runLoop sampleJson cycleAll (App.init 1 60) Sink.empty).sink).sink.gauge
        Gauge.nvmeTemperature (sampleDevice 1).DevicePath).isSome = false := by
  set_option maxRecDepth 100000 in decide

/-- **C3**, amended. Let the smart-log command or `parseNVMeStats` fail for a listed device of
path `p`. Then `runLoop` returns `false`; every call that addresses `p` is one of the deletions
of the second loop, and there is such a call exactly when `p` was a key of `knownDevices` with
a false flag before the call, in which case all 27 deletions are made; the entry of `p` is not
marked (afterwards it is absent, or false if it was true before); if `p` was not such a key its
series are what they were. Every listed device whose telemetry is fetched and parsed has its
info series and its 26 gauges set, is a key of `knownDevices` afterwards, and has a value in
each gauge. -/
theorem runLoop_partial_failure (json : Json) (cyc : Cycle) (a : App β) (s : Sink)
    (devs : List NVMeDevice) (d : NVMeDevice) (r : LoopResult β)
    (hlist : listDevices json cyc = some devs) (hd : d ∈ devs)
    (hfail : fetchStats json cyc d.DevicePath = none) (hr : r = runLoop json cyc a s) :
    r.success = false ∧
      (∀ op ∈ r.calls, op.device = d.DevicePath → op ∈ evictCalls d.DevicePath) ∧
      ((∃ op ∈ r.calls, op.device = d.DevicePath) ↔
        a.knownDevices.lookup d.DevicePath = some false) ∧
      (a.knownDevices.lookup d.DevicePath = some false →
        ∀ op ∈ evictCalls d.DevicePath, op ∈ r.calls) ∧
      (r.app.knownDevices.lookup d.DevicePath =
        match a.knownDevices.lookup d.DevicePath with
        | some true => some false
        | _ => none) ∧
      (a.knownDevices.lookup d.DevicePath ≠ some false →
        r.sink.nvmeInfo d.DevicePath = s.nvmeInfo d.DevicePath ∧
          ∀ g, r.sink.gauge g d.DevicePath = s.gauge g d.DevicePath) ∧
      (∀ e ∈ devs, ∀ stats, fetchStats json cyc e.DevicePath = some stats →
        SinkOp.setInfo e.DevicePath e.ModelNumber e.SerialNumber e.Firmware ∈ r.calls ∧
          (∀ g, SinkOp.setGauge g e.DevicePath (gaugeValue e stats g) ∈ r.calls) ∧
          r.app.knownDevices.lookup e.DevicePath = some false ∧
          (∀ g, (r.sink.gauge g e.DevicePath).isSome = true)) := by
  have hv := runLoop_view json cyc a s devs hlist
  rw [← hr] at hv
  have hvp := hv d.DevicePath
  rw [loopView_of_failed json cyc devs d.DevicePath hfail] at hvp
  obtain ⟨pub, evict, hc, hpub, hpub2, hev⟩ := runLoop_calls json cyc a s devs hlist
  rw [← hr] at hc
  have hkp : (loopView json cyc devs d.DevicePath (viewOf a s d.DevicePath)).known =
      a.knownDevices.lookup d.DevicePath := by
    rw [loopView_of_failed json cyc devs d.DevicePath hfail]
    rfl
  have hcalls : ∀ op ∈ r.calls, op.device = d.DevicePath →
      op ∈ evictCalls d.DevicePath ∧ a.knownDevices.lookup d.DevicePath = some false := by
    intro op hop hdev
    rw [hc] at hop
    rcases List.mem_append.1 hop with hop | hop
    · obtain ⟨e, -, stats, prev, hf, hmem⟩ := hpub2 op hop
      rw [← (publishCalls_device prev e stats op hmem).1, hdev, hfail] at hf
      cases hf
    · obtain ⟨q, hq, hmem⟩ := (hev op).1 hop
      have hq2 := (evictCalls_device q op hmem).1
      rw [hdev] at hq2
      subst hq2
      rw [hkp] at hq
      exact ⟨hmem, hq⟩
  have hall : a.knownDevices.lookup d.DevicePath = some false →
      ∀ op ∈ evictCalls d.DevicePath, op ∈ r.calls := by
    intro hk op hop
    rw [hc]
    exact List.mem_append_right _ ((hev op).2 ⟨d.DevicePath, hkp.trans hk, hop⟩)
  refine ⟨?_, fun op hop hdev => (hcalls op hop hdev).1, ⟨?_, ?_⟩, hall, ?_, ?_, ?_⟩
  · rw [hr, runLoop_success_of_list_some json cyc a s devs hlist]
    simp only [Bool.not_eq_false', List.any_eq_true]
    exact ⟨d, hd, by rw [hfail]; rfl⟩
  · rintro ⟨op, hop, hdev⟩
    exact (hcalls op hop hdev).2
  · intro hk
    exact ⟨SinkOp.deleteInfo d.DevicePath, hall hk _ (deleteInfo_mem_evictCalls _), rfl⟩
  · have := congrArg PathView.known hvp
    rw [sweepView_known] at this
    exact this
  · intro hk
    have h1 := sweepView_of_known_ne_false (viewOf a s d.DevicePath) hk
    rw [← hvp] at h1
    exact ⟨h1.1, fun g => congrFun h1.2 g⟩
  · intro e he stats hf
    obtain ⟨prev, hmem⟩ := foldl_deviceStep_calls_mem json cyc devs ⟨a, s, [], false⟩ e he stats hf
    have hmem' : ∀ op ∈ publishCalls prev e stats, op ∈ r.calls := by
      intro op hop
      rw [hc, hpub]
      exact List.mem_append_left _ (hmem op hop)
    have hve := hv e.DevicePath
    have hk := loopView_known_of_listed json cyc devs e he stats hf (viewOf a s e.DevicePath)
    refine ⟨hmem' _ (setInfo_mem_publishCalls prev e stats),
      fun g => hmem' _ (setGauge_mem_publishCalls prev e stats g), ?_, fun g => ?_⟩
    · have := congrArg PathView.known hve
      rw [sweepView_known, hk] at this
      exact this
    · have h1 := sweepView_of_known_ne_false
        (loopView json cyc devs e.DevicePath (viewOf a s e.DevicePath)) (by rw [hk]; simp)
      rw [← hve] at h1
      have h2 := congrFun h1.2 g
      have h3 := loopView_gauge_of_listed json cyc devs e he stats hf (viewOf a s e.DevicePath) g
      rw [← h2] at h3
      exact h3

/-- Instance of the amended C3: from the initial state, the smart-log command fails for the
second of three drives. -/
theorem runLoop_partial_failure_witness :
    (runLoop sampleJson cycleSecondFails (App.init 1 60) Sink.empty).success = false :=
  (runLoop_partial_failure sampleJson cycleSecondFails (App.init 1 60) Sink.empty
    [sampleDevice 0, sampleDevice 1, sampleDevice 2] (sampleDevice 1) _ rfl (by decide) rfl
    rfl).1

/-- **C4**, as stated, fails: the counter string `18446744073709551616` (that is `2 ^ 64`) makes
`parseNumberWithCommas` return a range error, `parseNVMeStats` returns a record, and the field
of the record holds `2 ^ 64 - 1`, not 0. -/
theorem parseNVMeStats_overflow_counterexample :
    (sampleRaw 300).HostReadCommands = "18446744073709551616" ∧
      (parseNumberWithCommas (sampleRaw 300).HostReadCommands).2 = some NumError.outOfRange ∧
      (parseNVMeStats sampleJson.unmarshalStats [300]).map NVMeStats.HostReadCommands =
        some 18446744073709551615 := by
  decide

/-- **C4**, amended. When the blob decodes into `raw`, `parseNVMeStats` returns a record without
error, and for each of the ten counters: if `parseNumberWithCommas` fails with a syntax error
the field is 0; if it fails with a range error the field is `2 ^ 64 - 1`; a string that is
empty once the commas are removed gives 0, and one that then consists of digits denoting a
number of at least `2 ^ 64` gives `2 ^ 64 - 1`. -/
theorem parseNVMeStats_malformed_counter (unmarshal : List Nat → Option rawNVMeStats)
    (data : List Nat) (raw : rawNVMeStats) (h : unmarshal data = some raw) :
    ∃ stats, parseNVMeStats unmarshal data = some stats ∧
      ∀ f ∈ counterFields,
        ((parseNumberWithCommas (f.1 raw)).2 = some NumError.malformed → f.2 stats = 0) ∧
        ((parseNumberWithCommas (f.1 raw)).2 = some NumError.outOfRange →
          f.2 stats = 2 ^ 64 - 1) ∧
        ((removeCommas (f.1 raw)).data = [] → f.2 stats = 0) ∧
        ((removeCommas (f.1 raw)).data ≠ [] →
          (∀ c ∈ (removeCommas (f.1 raw)).data, isDecDigit c = true) →
          2 ^ 64 ≤ decimalValue (f.1 raw).data → f.2 stats = 2 ^ 64 - 1) := by
  obtain ⟨stats, h1, h2⟩ := parseNVMeStats_counters unmarshal data raw h
  refine ⟨stats, h1, fun f hf => ?_⟩
  rw [h2 f hf]
  refine ⟨(parseNumberWithCommas_error _).1, (parseNumberWithCommas_error _).2, ?_, ?_⟩
  · intro he
    unfold parse parseNumberWithCommas ParseUint
    rw [if_pos he]
  · intro hne hdig hval
    unfold parse
    rw [parseNumberWithCommas_digits _ hne hdig, decimalValue_removeCommas,
      if_neg (by omega)]
    rfl

/-- Instance of the amended C4: the record `sampleRaw 300`, whose counters include `abc`, the
empty string and `2 ^ 64`. -/
theorem parseNVMeStats_malformed_counter_witness :
    ∃ stats, parseNVMeStats sampleJson.unmarshalStats [300] = some stats ∧
      ∀ f ∈ counterFields,
        ((parseNumberWithCommas (f.1 (sampleRaw 300))).2 = some NumError.malformed →
          f.2 stats = 0) ∧
        ((parseNumberWithCommas (f.1 (sampleRaw 300))).2 = some NumError.outOfRange →
          f.2 stats = 2 ^ 64 - 1) ∧
        ((removeCommas (f.1 (sampleRaw 300))).data = [] → f.2 stats = 0) ∧
        ((removeCommas (f.1 (sampleRaw 300))).data ≠ [] →
          (∀ c ∈ (removeCommas (f.1 (sampleRaw 300))).data, isDecDigit c = true) →
          2 ^ 64 ≤ decimalValue (f.1 (sampleRaw 300)).data → f.2 stats = 2 ^ 64 - 1) :=
  parseNVMeStats_malformed_counter sampleJson.unmarshalStats [300] (sampleRaw 300) rfl

/-- **C5** (comma-grouped counters). For a string made of decimal digits and commas only, with
at least one digit, whose digits denote `n < 2 ^ 64`, `parseNumberWithCommas` returns `n`
without error, and `parseNVMeStats` stores `n` in the field of every counter whose string it
is. -/
theorem parseNumberWithCommas_grouped (s : String)
    (hchars : ∀ c ∈ s.data, isDecDigit c = true ∨ c = ',')
    (hdigit : ∃ c ∈ s.data, isDecDigit c = true)
    (hfit : decimalValue s.data < 2 ^ 64) :
    parseNumberWithCommas s = (decimalValue s.data, none) ∧
      ∀ (unmarshal : List Nat → Option rawNVMeStats) (data : List Nat) (raw : rawNVMeStats),
        unmarshal data = some raw →
        ∃ stats, parseNVMeStats unmarshal data = some stats ∧
          ∀ f ∈ counterFields, f.1 raw = s → f.2 stats = decimalValue s.data := by
  have hne : (removeCommas s).data ≠ [] := by
    obtain ⟨c, hc, hd⟩ := hdigit
    have : c ∈ (removeCommas s).data := by
      unfold removeCommas
      exact List.mem_filter.2 ⟨hc, by simpa using isDecDigit_ne_comma c hd⟩
    exact List.ne_nil_of_mem this
  have hdig : ∀ c ∈ (removeCommas s).data, isDecDigit c = true := by
    intro c hc
    unfold removeCommas at hc
    obtain ⟨h1, h2⟩ := List.mem_filter.1 hc
    rcases hchars c h1 with h | h
    · exact h
    · simp [h] at h2
  have hparse : parseNumberWithCommas s = (decimalValue s.data, none) := by
    rw [parseNumberWithCommas_digits s hne hdig, decimalValue_removeCommas, if_pos hfit]
  refine ⟨hparse, fun unmarshal data raw h => ?_⟩
  obtain ⟨stats, h1, h2⟩ := parseNVMeStats_counters unmarshal data raw h
  refine ⟨stats, h1, fun f hf hs => ?_⟩
  rw [h2 f hf, hs]
  unfold parse
  rw [hparse]

/-- Instance of C5: the string `1,234,567` yields 1234567. -/
theorem parseNumberWithCommas_grouped_witness :
    parseNumberWithCommas "1,234,567" = (1234567, none) :=
  (parseNumberWithCommas_grouped "1,234,567" (by decide) (by decide) (by decide)).1

/-- **C10** (loop-run counter). After the iterations of `Run` over any sequence of cycles the
counter `loopRuns` has grown by the number of cycles in which `runLoop` returned `true`. In one
iteration: if `runLoop` returns `false` the counter is unchanged and the timer is given the
duration returned by `NextBackOff`; if it returns `true` the counter grows by exactly one, the
backoff is `Reset` and the timer is given `checkInterval`. -/
theorem Run_loopRuns (bo : BackOff β) (json : Json) (cycles : List Cycle) (st : App β × Sink) :
    (Run bo json cycles st).2.loopRuns =
        st.2.loopRuns + (runOutcomes bo json cycles st).count true ∧
      (runOutcomes bo json cycles st).length = cycles.length ∧
      ∀ (cyc : Cycle) (st : App β × Sink),
        (runIteration bo json cyc st).2.1 = (runLoop json cyc st.1 st.2).success ∧
        ((runLoop json cyc st.1 st.2).success = false →
          (runIteration bo json cyc st).1.2.loopRuns = st.2.loopRuns ∧
          (runIteration bo json cyc st).1.1.b = (bo.NextBackOff st.1.b).2 ∧
          (runIteration bo json cyc st).2.2 = (bo.NextBackOff st.1.b).1) ∧
        ((runLoop json cyc st.1 st.2).success = true →
          (runIteration bo json cyc st).1.2.loopRuns = st.2.loopRuns + 1 ∧
          (runIteration bo json cyc st).1.1.b = bo.Reset st.1.b ∧
          (runIteration bo json cyc st).2.2 = st.1.checkInterval) := by
  refine ⟨?_, ?_, fun cyc st => ⟨(runIteration_loopRuns bo json cyc st).1, ?_, ?_⟩⟩
  · induction cycles generalizing st with
    | nil => simp [Run, runOutcomes]
    | cons cyc rest ih =>
      obtain ⟨h1, h2⟩ := runIteration_loopRuns bo json cyc st
      rw [Run, runOutcomes, ih, h2, h1]
      cases (runLoop json cyc st.1 st.2).success
      · simp
      · simp
        omega
  · induction cycles generalizing st with
    | nil => rfl
    | cons cyc rest ih => simp [runOutcomes, ih]
  · intro h
    obtain ⟨h1, h2, h3⟩ := runLoop_frame json cyc st.1 st.2
    simp only [runIteration, h, Bool.not_false, if_true, h1, h3, and_self]
  · intro h
    obtain ⟨h1, h2, h3⟩ := runLoop_frame json cyc st.1 st.2
    simp only [runIteration, h, Bool.not_true, Bool.false_eq_true, if_false, h1, h2, h3,
      and_self]

/-- **C9** (idempotence). From any state that the program reaches between two iterations of
`Run`, calling `runLoop` twice in a row with the same cycle input leaves, after the second
call, the registry (every series with its value), `deviceData` and `knownDevices` (same keys
with the same flags) as they were after the first call; the two calls also return the same
result. -/
theorem runLoop_idempotent (bo : BackOff β) (json : Json) (st : App β × Sink)
    (hreach : Reachable bo json st) (cyc : Cycle) (r1 r2 : LoopResult β)
    (hr1 : r1 = runLoop json cyc st.1 st.2) (hr2 : r2 = runLoop json cyc r1.app r1.sink) :
    r2.sink = r1.sink ∧ r2.app.deviceData = r1.app.deviceData ∧
      r2.app.knownDevices.entries.Perm r1.app.knownDevices.entries ∧
      (∀ p, r2.app.knownDevices.lookup p = r1.app.knownDevices.lookup p) ∧
      r2.success = r1.success := by
  cases hl : listDevices json cyc with
  | none =>
    have e1 : r1 = ⟨false, st.1, st.2, []⟩ := by
      rw [hr1, runLoop_of_list_none json cyc st.1 st.2 hl]
    have e2 : r2 = ⟨false, st.1, st.2, []⟩ := by
      rw [hr2, e1, runLoop_of_list_none json cyc st.1 st.2 hl]
    rw [e1, e2]
    exact ⟨rfl, rfl, List.Perm.refl _, fun _ => rfl, rfl⟩
  | some devs =>
    have hv1 : ∀ p, viewOf r1.app r1.sink p =
        sweepView (loopView json cyc devs p (viewOf st.1 st.2 p)) := by
      intro p
      rw [hr1]
      exact runLoop_view json cyc st.1 st.2 devs hl p
    have hv2 : ∀ p, viewOf r2.app r2.sink p = viewOf r1.app r1.sink p := by
      intro p
      rw [hr2, runLoop_view json cyc r1.app r1.sink devs hl p, hv1 p]
      exact cycleView_idem json cyc devs p _ (hreach.known_ne_true p)
    have hlook : ∀ p, r2.app.knownDevices.lookup p = r1.app.knownDevices.lookup p :=
      fun p => congrArg PathView.known (hv2 p)
    have hruns : r2.sink.loopRuns = r1.sink.loopRuns := by
      rw [hr2]
      exact (runLoop_frame json cyc r1.app r1.sink).2.2
    refine ⟨?_, ?_, ?_, hlook, ?_⟩
    · have hi : r2.sink.nvmeInfo = r1.sink.nvmeInfo :=
        funext fun p => congrArg PathView.info (hv2 p)
      have hg : r2.sink.gauge = r1.sink.gauge :=
        funext fun g => funext fun p => congrFun (congrArg PathView.gauge (hv2 p)) g
      cases hs2 : r2.sink
      cases hs1 : r1.sink
      rw [hs2, hs1] at hi hg hruns
      simp only at hi hg hruns
      rw [hi, hg, hruns]
    · exact funext fun p => congrArg PathView.data (hv2 p)
    · refine List.lookup_ext r2.app.knownDevices.nodupKeys r1.app.knownDevices.nodupKeys
        (fun x y => ?_)
      have := hlook x
      unfold AList.lookup at this
      rw [this]
    · rw [hr2, hr1, runLoop_success_of_list_some json cyc _ _ devs hl,
        runLoop_success_of_list_some json cyc _ _ devs hl]

/-- Instance of C9: from the state reached after a first iteration of `Run`, the cycle in which
the second drive fails is run twice. -/
theorem runLoop_idempotent_witness :
    (runLoop sampleJson cycleSecondFails
        (runLoop sampleJson cycleSecondFails
          (runIteration sampleBackOff sampleJson cycleAll (App.init 1 60, Sink.empty)).1.1
          (runIteration sampleBackOff sampleJson cycleAll (App.init 1 60, Sink.empty)).1.2).app
        (runLoop sampleJson cycleSecondFails
          (runIteration sampleBackOff sampleJson cycleAll (App.init 1 60, Sink.empty)).1.1
          (runIteration sampleBackOff sampleJson cycleAll
            (App.init 1 60, Sink.empty)).1.2).sink).sink =
      (runLoop sampleJson cycleSecondFails
        (runIteration sampleBackOff sampleJson cycleAll (App.init 1 60, Sink.empty)).1.1
        (runIteration sampleBackOff sampleJson cycleAll (App.init 1 60, Sink.empty)).1.2).sink :=
  (runLoop_idempotent sampleBackOff sampleJson _
    (Reachable.next cycleAll _ (Reachable.start 1 60)) cycleSecondFails _ _ rfl rfl).1

/-- **C6**, as stated, fails: for the raw temperature `2 ^ 53 + 1 = 9007199254740993`, a value
of the Go type `int`, the conversion yields `9007199254740719`, which is `t - 274`, because
`float64(t)` is already rounded. -/
theorem kelvinToCelsius_counterexample :
    kelvinToCelsius 9007199254740993 = 9007199254740719 ∧
      (9007199254740993 : ℤ) - 273 ≠ 9007199254740719 := by
  refine ⟨?_, by decide⟩
  have h1 : f64 ((9007199254740993 : ℤ) : ℚ) = 9007199254740992 := by
    rw [f64_of_log _ 53 (by rw [abs_of_pos] <;> norm_num) (by rw [abs_of_pos] <;> norm_num)
      (by norm_num)]
    have hp : (2 : ℚ) ^ ((53 : ℤ) - 52) = 2 := by norm_num
    have hq : ((9007199254740993 : ℤ) : ℚ) / 2 = ((4503599627370496 : ℤ) : ℚ) + 1 / 2 := by
      norm_num
    rw [hp, hq, roundHalfEven_tie_even _ (by decide)]
    norm_num
  have h2 : f64 ((9007199254740992 : ℚ) - 2402652809016115 / 8796093022208) =
      9007199254740719 := by
    rw [f64_of_log _ 52 (by rw [abs_of_pos] <;> norm_num) (by rw [abs_of_pos] <;> norm_num)
      (by norm_num)]
    have hp : (2 : ℚ) ^ ((52 : ℤ) - 52) = 1 := by norm_num
    rw [hp, div_one, roundHalfEven_eq_of_lt _ 9007199254740719
      (by rw [abs_lt]; constructor <;> norm_num)]
    norm_num
  unfold kelvinToCelsius
  rw [h1, f64_27315, h2]
  have h3 : mathRound (9007199254740719 : ℚ) = ((9007199254740719 : ℤ) : ℚ) :=
    mathRound_of_near _ 9007199254740719 (by norm_num)
  rw [h3]
  exact floatToInt_intCast _ (by decide) (by decide)

/-- **C6**, amended. For every raw temperature `t` with `-2 ^ 53 + 274 ≤ t ≤ 2 ^ 53` the
conversion of `parseNVMeStats` yields `t - 273`, which is `t - 273.15` rounded to the nearest
integer, halves away from zero; it is applied to every record that decodes, whatever the
value. -/
theorem kelvinToCelsius_in_range (t : ℤ) (hlo : -2 ^ 53 + 274 ≤ t) (hhi : t ≤ 2 ^ 53) :
    kelvinToCelsius t = t - 273 ∧
      mathRound ((t : ℚ) - 27315 / 100) = ((t - 273 : ℤ) : ℚ) ∧
      ∀ (unmarshal : List Nat → Option rawNVMeStats) (data : List Nat) (raw : rawNVMeStats),
        unmarshal data = some raw →
        ∃ stats, parseNVMeStats unmarshal data = some stats ∧
          stats.Temperature = kelvinToCelsius raw.Temperature ∧
          (raw.Temperature = t → stats.Temperature = t - 273) := by
  have hmain : kelvinToCelsius t = t - 273 := by
    have hft : f64 (t : ℚ) = t := by
      by_cases h53 : t = 2 ^ 53
      · subst h53
        have := f64_two_pow_53
        push_cast
        exact this
      · apply f64_intCast
        rw [abs_lt]
        constructor <;> omega
    have hloq : (-2 ^ 53 + 274 : ℚ) ≤ (t : ℚ) := by exact_mod_cast hlo
    have hhiq : (t : ℚ) ≤ (2 ^ 53 : ℚ) := by exact_mod_cast hhi
    unfold kelvinToCelsius
    rw [hft, f64_27315]
    apply kelvinToCelsius_of_near
    · omega
    · omega
    · by_cases h : t ≤ 273
      · have hq : (t : ℚ) ≤ 273 := by exact_mod_cast h
        rw [abs_of_neg (by linarith)]
        linarith
      · have h' : 274 ≤ t := by omega
        have hq : (274 : ℚ) ≤ (t : ℚ) := by exact_mod_cast h'
        rw [abs_of_pos (by linarith)]
        linarith
    · rw [abs_lt]
      constructor
      · norm_num
        linarith
      · norm_num
        linarith
    · push_cast
      rw [abs_lt]
      constructor <;> linarith
  refine ⟨hmain, ?_, fun unmarshal data raw h => ?_⟩
  · apply mathRound_of_near
    push_cast
    rw [abs_lt]
    constructor <;> linarith
  · refine ⟨_, by unfold parseNVMeStats; rw [h], rfl, fun ht => ?_⟩
    show kelvinToCelsius raw.Temperature = t - 273
    rw [ht, hmain]

/-- Instance of the amended C6: raw 300 yields 27 and raw 274 yields 1. -/
theorem kelvinToCelsius_in_range_witness :
    kelvinToCelsius 300 = 27 ∧ kelvinToCelsius 274 = 1 :=
  ⟨(kelvinToCelsius_in_range 300 (by decide) (by decide)).1,
    (kelvinToCelsius_in_range 274 (by decide) (by decide)).1⟩

/-- **C11** (reconciler state invariant). Let the program have started from empty
`knownDevices`, empty `deviceData` and an empty registry. After every call of `runLoop`,
whatever it returns: every flag stored in `knownDevices` is false; if the device list was
fetched and decoded, the keys of `knownDevices` are exactly the paths of the listed devices
whose telemetry was fetched and parsed in this call; a path has a series in the registry
exactly when it is a key of `knownDevices`; and every key has a device in `deviceData`, whose
model, serial number and firmware label the one info series of the path. -/
theorem runLoop_state_invariant (bo : BackOff β) (json : Json) (st : App β × Sink)
    (hreach : Reachable bo json st) (cyc : Cycle) (r : LoopResult β)
    (hr : r = runLoop json cyc st.1 st.2) :
    (∀ p b, r.app.knownDevices.lookup p = some b → b = false) ∧
      (∀ devs, listDevices json cyc = some devs → ∀ p,
        p ∈ r.app.knownDevices.keys ↔
          ∃ d ∈ devs, d.DevicePath = p ∧ (fetchStats json cyc p).isSome = true) ∧
      (∀ p, hasSeries r.sink p ↔ p ∈ r.app.knownDevices.keys) ∧
      (∀ p, p ∈ r.app.knownDevices.keys →
        ∃ dev, r.app.deviceData p = some dev ∧
          ∀ m sn fw, r.sink.nvmeInfo p m sn fw =
            if m = dev.ModelNumber ∧ sn = dev.SerialNumber ∧ fw = dev.Firmware then some 1
            else none) := by
  have hc : ∀ p, (viewOf r.app r.sink p).Consistent := by
    intro p
    rw [hr]
    exact runLoop_consistent json cyc st.1 st.2 hreach.consistent p
  have hkey : ∀ p, p ∈ r.app.knownDevices.keys ↔ r.app.knownDevices.lookup p ≠ none := by
    intro p
    rw [← AList.mem_keys, ← AList.lookup_isSome, Option.isSome_iff_ne_none]
  refine ⟨fun p b hb => ?_, fun devs hl p => ?_, fun p => ?_, fun p hp => ?_⟩
  · rcases hc p with ⟨hk, -⟩ | ⟨hk, -⟩
    · have : r.app.knownDevices.lookup p = some false := hk
      rw [this] at hb
      cases hb
      rfl
    · have : r.app.knownDevices.lookup p = none := hk
      rw [this] at hb
      cases hb
  · have hv : viewOf r.app r.sink p =
        sweepView (loopView json cyc devs p (viewOf st.1 st.2 p)) := by
      rw [hr]
      exact runLoop_view json cyc st.1 st.2 devs hl p
    have hiff := (cycleView_consistent json cyc devs p _ (hreach.consistent p)).2
    rw [← hv] at hiff
    rw [hkey, ← hiff]
    rcases hc p with ⟨hk, -⟩ | ⟨hk, -⟩
    · have : r.app.knownDevices.lookup p = some false := hk
      rw [this]
      exact ⟨fun _ => hk, fun _ => by simp⟩
    · have : r.app.knownDevices.lookup p = none := hk
      rw [this]
      exact ⟨fun h => absurd rfl h, fun h => by rw [hk] at h; cases h⟩
  · rw [hkey]
    rcases hc p with ⟨hk, dev, -, -, hg⟩ | ⟨hk, hi, hg⟩
    · have : r.app.knownDevices.lookup p = some false := hk
      rw [this]
      exact ⟨fun _ => by simp, fun _ => Or.inr ⟨Gauge.nvmeUsedBytes, hg _⟩⟩
    · have hk' : r.app.knownDevices.lookup p = none := hk
      rw [hk']
      refine ⟨fun h => ?_, fun h => absurd rfl h⟩
      rcases h with ⟨m, sn, fw, h⟩ | ⟨g, h⟩
      · exact absurd (congrFun (congrFun (congrFun hi m) sn) fw) h
      · exact absurd (congrFun hg g) h
  · rw [hkey] at hp
    rcases hc p with ⟨-, dev, hdata, hinfo, -⟩ | ⟨hk, -⟩
    · exact ⟨dev, hdata, fun m sn fw => congrFun (congrFun (congrFun hinfo m) sn) fw⟩
    · exact absurd hk hp

/-- Instance of C11: the state after a first iteration of `Run` in which the second drive
fails, followed by a cycle in which all three drives answer. -/
theorem runLoop_state_invariant_witness :
    hasSeries
        (runLoop sampleJson cycleAll
          (runIteration sampleBackOff sampleJson cycleSecondFails
            (App.init 1 60, Sink.empty)).1.1
          (runIteration sampleBackOff sampleJson cycleSecondFails
            (App.init 1 60, Sink.empty)).1.2).sink "/dev/nvme1n1" ↔
      "/dev/nvme1n1" ∈
        (runLoop sampleJson cycleAll
          (runIteration sampleBackOff sampleJson cycleSecondFails
            (App.init 1 60, Sink.empty)).1.1
          (runIteration sampleBackOff sampleJson cycleSecondFails
            (App.init 1 60, Sink.empty)).1.2).app.knownDevices.keys :=
  (runLoop_state_invariant sampleBackOff sampleJson _
    (Reachable.next cycleSecondFails _ (Reachable.start 1 60)) cycleAll _ rfl).2.2.1
    "/dev/nvme1n1"

end Loop

end NvmeExporter
